import Mathlib

/-!
Verification of the pyraptor RAPTOR journey-planning core.

The definitions below are a shallow embedding of `pyraptor/model/raptor.py`
together with the pieces of the data model it uses.  The repository files
`pyraptor/model/structures.py` and `pyraptor/util.py` are not available;
everything taken from them is modelled from the specification and marked
with a doc comment starting with `Modelled from the spec:`.
Times are integer seconds (Nat); Python dictionaries keyed by Stop/Station
objects are modelled as association lists keyed by `Place`.
-/

namespace Pyraptor

/-- Modelled from the spec: the sentinel "infinite" arrival time
(`LARGE_NUMBER` in the missing `pyraptor/util.py`). -/
def LARGE_NUMBER : Nat := 999999999

/-- A stop is identified by its id string. -/
abbrev StopId := String

/-- One visit of a trip to a stop (`TripStopTime` of the data model);
the owning trip is referenced by its numeric id to break the cycle. -/
structure TripStopTime where
  tripId : Nat
  stopidx : Nat
  stop : StopId
  dts_arr : Nat
  dts_dep : Nat
  fare : Nat
deriving DecidableEq, Repr

/-- A scheduled vehicle run: an id and its ordered stop-time entries. -/
structure Trip where
  id : Nat
  stop_times : List TripStopTime
deriving DecidableEq, Repr

/-- Modelled from the spec: looking up a trip's stop time at a stop
(`Trip.get_stop` of the missing `structures.py`); first matching entry. -/
def Trip.get_stop_q (t : Trip) (s : StopId) : Option TripStopTime :=
  t.stop_times.find? (fun tst => tst.stop = s)

/-- Total version of `get_stop_q`; the default is never reached for trips
that actually visit `s`. -/
def Trip.get_stop (t : Trip) (s : StopId) : TripStopTime :=
  (t.get_stop_q s).getD ⟨t.id, 0, s, LARGE_NUMBER, LARGE_NUMBER, 0⟩

/-- Modelled from the spec: the trip slot of a label is either a real trip
or the sentinel "transfer" marker (`TRANSFER_TRIP` of the missing
`pyraptor/util.py`). -/
inductive TripLike where
  | trip : Trip → TripLike
  | transferTrip : TripLike
deriving DecidableEq, Repr

/-- The per-stop label of `pyraptor/model/raptor.py` (class `Label`). -/
structure Label where
  earliest_arrival_time : Nat := LARGE_NUMBER
  trip : Option TripLike := none
  from_stop : Option StopId := none
deriving DecidableEq, Repr

/-- A freshly constructed `Label()`: sentinel arrival, no trip, no
from-stop. -/
def Label.init : Label := ⟨LARGE_NUMBER, none, none⟩

/-- `Label.update`: the arrival time and from-stop are only overwritten when
a new value is supplied, the trip slot is always overwritten. -/
def Label.update (l : Label) (eat : Option Nat) (tr : Option TripLike)
    (fs : Option StopId) : Label :=
  { earliest_arrival_time :=
      match eat with
      | some v => v
      | none => l.earliest_arrival_time
    trip := tr
    from_stop :=
      match fs with
      | some s => some s
      | none => l.from_stop }

/-- Keys of the label dictionaries: Stop objects and Station objects. -/
inductive Place where
  | stop : StopId → Place
  | station : String → Place
deriving DecidableEq, Repr

/-- A bag of labels: a Python dict keyed by stops/stations. -/
abbrev Bag := List (Place × Label)

/-- Dictionary lookup on a bag. -/
def bagLookup (b : Bag) (p : Place) : Option Label :=
  match b with
  | [] => none
  | (q, l) :: t => if p = q then some l else bagLookup t p

/-- The label stored for `p`; defaults to a fresh `Label` (this default is
only reached for keys a run never writes). -/
def Bag.get (b : Bag) (p : Place) : Label :=
  (bagLookup b p).getD Label.init

/-- In-place mutation of the label object stored under key `p`
(a no-op when the key is absent, where Python would raise KeyError). -/
def Bag.upd (b : Bag) (p : Place) (f : Label → Label) : Bag :=
  match b with
  | [] => []
  | (q, l) :: t => (if q = p then (q, f l) else (q, l)) :: Bag.upd t p f

/-- A route pattern: an ordered stop sequence and the trips following it,
stored sorted ascending by departure time (the post-processing step
`order_trips_per_stop_by_time` of the missing `structures.py`). -/
structure Route where
  stops : List StopId
  trips : List Trip
deriving DecidableEq, Repr

/-- Modelled from the spec: position of a stop in the route's pattern
(`Route.stop_index` of the missing `structures.py`). -/
def Route.stop_index (r : Route) (s : StopId) : Nat :=
  r.stops.indexOf s

/-- Modelled from the spec: the earliest trip of the route departing from
`s` no earlier than `time`, with its stop time at `s`
(`Route.earliest_trip_stop_time` of the missing `structures.py`); the
forward scan relies on the trips being pre-sorted by departure time. -/
def Route.earliest_trip_stop_time (r : Route) (time : Nat) (s : StopId) :
    Option (Trip × TripStopTime) :=
  r.trips.findSome? (fun t =>
    match t.get_stop_q s with
    | some tst => if time ≤ tst.dts_dep then some (t, tst) else none
    | none => none)

/-- A directed footpath between two stops (`Transfer`). -/
structure Transfer where
  from_stop : StopId
  to_stop : StopId
  layovertime : Option Nat
deriving DecidableEq, Repr

/-- A station: a name and its member stops (platforms). -/
structure Station where
  name : String
  stops : List StopId
deriving DecidableEq, Repr

/-- The aggregate timetable; `transfers` is the stop-indexed outgoing
transfer map (`timetable.transfers.from_stop_idx`). -/
structure Timetable where
  stops : List StopId
  stations : List Station
  trips : List Trip
  trip_stop_times : List TripStopTime
  routes : List Route
  transfers : StopId → List Transfer

/-- Modelled from the spec: the routes serving a given stop
(`Routes.get_routes_of_stop` of the missing `structures.py`). -/
def Timetable.get_routes_of_stop (tt : Timetable) (s : StopId) : List Route :=
  tt.routes.filter (fun r => s ∈ r.stops)

/-- The mutable per-query state of `RaptorAlgorithm`: the per-round bags
`bag_round_stop`, the global best bag `bag_star`, the destination stop set
and the destination pruning bound. -/
structure RaptorState where
  bagRound : Nat → Bag
  bagStar : Bag
  destinationStops : List StopId
  earliestArrivalAtDestination : Nat

/-- Replace round `k`'s bag by its update at key `p`. -/
def updRound (br : Nat → Bag) (k : Nat) (p : Place) (f : Label → Label) :
    Nat → Bag :=
  fun j => if j = k then (br k).upd p f else br j

/-- The paired update of `bag_round_stop[k][p]` and `bag_star[p]` performed
by both `traverse_routes` and `add_transfer_time`: both labels receive the
same `(arrival, trip, from_stop)` payload. -/
def pairedWrite (s : RaptorState) (k : Nat) (p : Place) (v : Nat)
    (tr : Option TripLike) (fs : Option StopId) : RaptorState :=
  { s with
    bagRound := updRound s.bagRound k p (fun l => l.update (some v) tr fs)
    bagStar := s.bagStar.upd p (fun l => l.update (some v) tr fs) }

/-- Accumulator of the route scan: algorithm state, the `new_stops` list,
and the per-route `current_trip` / `boarding_stop` variables. -/
structure ScanAcc where
  st : RaptorState
  newStops : List StopId
  ct : Option Trip
  bs : Option StopId

/-- First half of the loop body of `traverse_routes`: if a trip is held and
its arrival at the current stop improves on the global best while staying
below the destination bound, update the round-k and global labels, tighten
the destination bound, and mark the stop. -/
def improveStep (k : Nat) (acc : ScanAcc) (p : StopId) : ScanAcc :=
  match acc.ct with
  | none => acc
  | some t =>
    if (t.get_stop p).dts_arr <
         (acc.st.bagStar.get (Place.stop p)).earliest_arrival_time ∧
       (t.get_stop p).dts_arr < acc.st.earliestArrivalAtDestination then
      if p ∈ acc.st.destinationStops then
        { acc with
          st :=
            { pairedWrite acc.st k (Place.stop p) (t.get_stop p).dts_arr
                (some (TripLike.trip t)) acc.bs with
              earliestArrivalAtDestination := (t.get_stop p).dts_arr }
          newStops := acc.newStops ++ [p] }
      else
        { acc with
          st := pairedWrite acc.st k (Place.stop p) (t.get_stop p).dts_arr
            (some (TripLike.trip t)) acc.bs
          newStops := acc.newStops ++ [p] }
    else acc

/-- Second half of the loop body of `traverse_routes`: when no trip is held,
or the previous round reached this stop no later than the held trip
departs, look for an earlier trip departing here no earlier than the
previous round's arrival; on a different trip, re-board here. -/
def boardStep (k : Nat) (route : Route) (acc : ScanAcc) (p : StopId) : ScanAcc :=
  let prev := ((acc.st.bagRound (k - 1)).get (Place.stop p)).earliest_arrival_time
  let canBoard : Bool :=
    match acc.ct with
    | none => true
    | some t => prev ≤ (t.get_stop p).dts_dep
  if canBoard then
    match route.earliest_trip_stop_time prev p with
    | some (tNew, _) =>
      if some tNew ≠ acc.ct then { acc with ct := some tNew, bs := some p }
      else acc
    | none => acc
  else acc

/-- One iteration of the stop loop of `traverse_routes`. -/
def traverseStop (k : Nat) (route : Route) (acc : ScanAcc) (p : StopId) : ScanAcc :=
  boardStep k route (improveStep k acc p) p

/-- One iteration of the route loop of `traverse_routes`: reset the held
trip, then walk the route's stops from the marked stop onward. -/
def traverseRoute (k : Nat) (acc : RaptorState × List StopId)
    (rp : Route × StopId) : RaptorState × List StopId :=
  let remaining := rp.1.stops.drop (rp.1.stop_index rp.2)
  let res := remaining.foldl (traverseStop k rp.1) ⟨acc.1, acc.2, none, none⟩
  (res.st, res.newStops)

/-- `RaptorAlgorithm.traverse_routes`: scan every marked (route, stop) pair,
returning the updated state and the stops improved by trips. -/
def traverse_routes (k : Nat) (st : RaptorState)
    (q : List (Route × StopId)) : RaptorState × List StopId :=
  q.foldl (traverseRoute k) (st, [])

/-- `RaptorAlgorithm.accumulate_routes`: for each marked stop and each route
serving it, keep per route the most upstream marked stop; the dictionary is
modelled as an insertion-ordered association list. -/
def accumulate_routes (tt : Timetable) (marked : List StopId) :
    List (Route × StopId) :=
  marked.foldl (fun q ms =>
    (tt.get_routes_of_stop ms).foldl (fun q route =>
      match (q.find? (fun rp => rp.1 = route)).map (fun rp => rp.2) with
      | none => q ++ [(route, ms)]
      | some cur =>
        if route.stop_index cur > route.stop_index ms then
          q.map (fun rp => if rp.1 = route then (route, ms) else rp)
        else q) q) []

/-- One transfer relaxation of `add_transfer_time`: `ts` is the round-k
arrival at the transfer's origin read when that stop's processing began. -/
def relaxOne (k : Nat) (cur : StopId) (ts : Nat)
    (acc : RaptorState × List StopId) (tr : Transfer) :
    RaptorState × List StopId :=
  match tr.layovertime with
  | none => acc
  | some c =>
    let newArrival := ts + c
    if newArrival < (acc.1.bagStar.get (Place.stop tr.to_stop)).earliest_arrival_time then
      (pairedWrite acc.1 k (Place.stop tr.to_stop) newArrival
        (some TripLike.transferTrip) (some cur),
       acc.2 ++ [tr.to_stop])
    else acc

/-- `RaptorAlgorithm.add_transfer_time`: relax every outgoing transfer of
every marked stop. -/
def add_transfer_time (tt : Timetable) (k : Nat) (st : RaptorState)
    (marked : List StopId) : RaptorState × List StopId :=
  marked.foldl (fun acc cur =>
    let ts := ((acc.1.bagRound k).get (Place.stop cur)).earliest_arrival_time
    (tt.transfers cur).foldl (relaxOne k cur ts) acc) (st, [])

/-- The initialization part of `RaptorAlgorithm.run`: fresh labels for every
stop and station in every round bag, fresh global labels for every stop,
then each origin stop's round-0 and global labels set to the departure
time.  `initBase` is the state right after the fresh-label loops. -/
def initBase (tt : Timetable) (to_station : Station) (rounds : Nat) :
    RaptorState :=
  { bagRound := fun k =>
      if k ≤ rounds then
        tt.stops.map (fun s => (Place.stop s, Label.init)) ++
          tt.stations.map (fun st => (Place.station st.name, Label.init))
      else []
    bagStar := tt.stops.map (fun s => (Place.stop s, Label.init))
    destinationStops := to_station.stops
    earliestArrivalAtDestination := LARGE_NUMBER }

/-- The initialization of `RaptorAlgorithm.run` completed: the origin loop
writes each origin stop's round-0 and global labels. -/
def initState (tt : Timetable) (from_stops : List StopId)
    (to_station : Station) (dep_secs : Nat) (rounds : Nat) : RaptorState :=
  from_stops.foldl (fun st fs =>
    { st with
      bagRound := updRound st.bagRound 0 (Place.stop fs)
        (fun l => l.update (some dep_secs) none none)
      bagStar := st.bagStar.upd (Place.stop fs)
        (fun l => l.update (some dep_secs) none none) })
    (initBase tt to_station rounds)

/-- The round loop of `RaptorAlgorithm.run`: rounds `k, k+1, ...` while fuel
remains, stopping early once no stop is marked.  The marked set for the
next round is the union of the trip-improved and transfer-improved stops
(Python iterates a set; the union is modelled as deduplicated
concatenation). -/
def runRounds (tt : Timetable) (k : Nat) (fuel : Nat) (st : RaptorState)
    (marked : List StopId) : RaptorState :=
  match fuel with
  | 0 => st
  | fuel' + 1 =>
    if marked.isEmpty then st
    else
      let q := accumulate_routes tt marked
      let tr := traverse_routes k st q
      let tf := add_transfer_time tt k tr.1 tr.2
      runRounds tt (k + 1) fuel' tf.1 ((tr.2 ++ tf.2).eraseDups)

/-- The full state produced by `RaptorAlgorithm.run` (the Python method
keeps it in the instance and in `bag_round_stop`). -/
def runState (tt : Timetable) (from_stops : List StopId)
    (to_station : Station) (dep_secs : Nat) (rounds : Nat) : RaptorState :=
  runRounds tt 1 rounds (initState tt from_stops to_station dep_secs rounds)
    from_stops

/-- `RaptorAlgorithm.run`: the returned mapping is the global best bag. -/
def run (tt : Timetable) (from_stops : List StopId) (to_station : Station)
    (dep_secs : Nat) (rounds : Nat) : Bag :=
  (runState tt from_stops to_station dep_secs rounds).bagStar

/-- `best_stop_at_target_station`: the destination stop with the smallest
arrival time; `none` models the Python `0` sentinel returned when no
destination stop beats the sentinel infinity. -/
def best_stop_at_target_station (to_stops : List StopId) (bag : Bag) :
    Option StopId :=
  (to_stops.foldl (fun acc stop =>
    if (bag.get (Place.stop stop)).earliest_arrival_time < acc.2 then
      (some stop, (bag.get (Place.stop stop)).earliest_arrival_time)
    else acc) ((none : Option StopId), LARGE_NUMBER)).1

/-- One journey segment (`Leg`): boarding stop, alighting stop, trip or
transfer marker, arrival time. -/
structure Leg where
  from_stop : StopId
  to_stop : StopId
  trip : Option TripLike
  earliest_arrival_time : Nat
deriving DecidableEq, Repr

/-- Modelled from the spec: a journey is an ordered sequence of legs
(class `Journey` of the missing `structures.py`). -/
structure Journey where
  legs : List Leg
deriving DecidableEq, Repr

/-- Modelled from the spec: the overall arrival time a journey exposes; the
arrival of its last leg. -/
def Journey.arr (j : Journey) : Nat :=
  match j.legs.getLast? with
  | some l => l.earliest_arrival_time
  | none => 0

/-- Modelled from the spec: the overall departure time a journey exposes;
the first leg's trip departure at its boarding stop. -/
def Journey.dep (j : Journey) : Nat :=
  match j.legs.head? with
  | some l =>
    match l.trip with
    | some (TripLike.trip t) => (t.get_stop l.from_stop).dts_dep
    | _ => l.earliest_arrival_time
  | none => 0

/-- `reconstruct_journey`: walk the best-label table backward from the
destination, prepending a leg per step, until a label without a from-stop;
the Python while loop is bounded here by explicit fuel. -/
def reconstruct_journey (fuel : Nat) (bag : Bag) (to_stop : StopId) : Journey :=
  match fuel with
  | 0 => ⟨[]⟩
  | fuel' + 1 =>
    match (bag.get (Place.stop to_stop)).from_stop with
    | none => ⟨[]⟩
    | some fs =>
      let l := bag.get (Place.stop to_stop)
      ⟨(reconstruct_journey fuel' bag fs).legs ++
        [⟨fs, to_stop, l.trip, l.earliest_arrival_time⟩]⟩

/-- The backward from-stop walk itself, collecting legs in walk order
(destination first). -/
def backwardWalk (fuel : Nat) (bag : Bag) (to_stop : StopId) : List Leg :=
  match fuel with
  | 0 => []
  | fuel' + 1 =>
    match (bag.get (Place.stop to_stop)).from_stop with
    | none => []
    | some fs =>
      ⟨fs, to_stop, (bag.get (Place.stop to_stop)).trip,
        (bag.get (Place.stop to_stop)).earliest_arrival_time⟩ ::
        backwardWalk fuel' bag fs

/-- Whether the backward from-stop walk from `d` reaches a label with no
from-stop within `fuel` steps. -/
def chainTermB (bag : Bag) (d : StopId) (fuel : Nat) : Bool :=
  match fuel with
  | 0 => false
  | fuel' + 1 =>
    match (bag.get (Place.stop d)).from_stop with
    | none => true
    | some b => chainTermB bag b fuel'

/-- `is_dominated`: the new journey is pruned when it equals the previously
accepted journey or is no better on both criteria and worse on one; the
Python falsy check on the original covers the absent (first) journey. -/
def is_dominated (original : Option Journey) (newJourney : Journey) : Bool :=
  match original with
  | none => false
  | some o =>
    if o = newJourney then true
    else
      decide ((o.dep ≥ newJourney.dep ∧ o.arr < newJourney.arr) ∨
        (o.dep > newJourney.dep ∧ o.arr ≤ newJourney.arr))

/-- The domination relation exactly as the specification words it: journey
`a` is dominated by journey `b` when `b` departs no earlier and arrives no
later than `a`, with at least one strict inequality. -/
def specDominated (a b : Journey) : Prop :=
  (b.dep ≥ a.dep ∧ b.arr ≤ a.arr) ∧ (b.dep > a.dep ∨ b.arr < a.arr)

instance (a b : Journey) : Decidable (specDominated a b) := by
  unfold specDominated; exact inferInstance

/-- The later-listed journey departs strictly earlier. -/
def depDec (a b : Journey) : Prop := b.dep < a.dep

/-- The later-listed journey arrives strictly earlier. -/
def arrDec (a b : Journey) : Prop := b.arr < a.arr

instance (a b : Journey) : Decidable (depDec a b) := by
  unfold depDec; exact inferInstance

instance (a b : Journey) : Decidable (arrDec a b) := by
  unfold arrDec; exact inferInstance

/-- The acceptance step of `run_range_raptor`: append the candidate unless
it is dominated by the most recently accepted journey. -/
def acceptStep (acc : List Journey) (j : Journey) : List Journey :=
  if acc.length = 0 || !(is_dominated acc.getLast? j) then acc ++ [j] else acc

/-- The acceptance loop of `run_range_raptor` over the candidate journeys in
processing order (latest departure first). -/
def acceptJourneys (cands : List Journey) : List Journey :=
  cands.foldl acceptStep []

/-- Modelled from the spec: all trip stop times leaving one of the given
stops within the departure window
(`TripStopTimes.get_trip_stop_times_in_range` of the missing
`structures.py`). -/
def get_trip_stop_times_in_range (tt : Timetable) (from_stops : List StopId)
    (dep_secs_min dep_secs_max : Nat) : List TripStopTime :=
  tt.trip_stop_times.filter (fun tst =>
    tst.stop ∈ from_stops ∧ dep_secs_min ≤ tst.dts_dep ∧
      tst.dts_dep ≤ dep_secs_max)

/-- Insert into a descending-sorted list. -/
def insertDesc (x : Nat) : List Nat → List Nat
  | [] => [x]
  | y :: t => if y < x then x :: y :: t else y :: insertDesc x t

/-- Sort descending (`sorted(..., reverse=True)`). -/
def sortDesc (l : List Nat) : List Nat :=
  l.foldr insertDesc []

/-- The per-departure-time candidate journeys of `run_range_raptor`: for
each distinct candidate departure time, latest first, run the algorithm and
reconstruct the best journey to the destination, skipping departure times
where no destination stop was reached. -/
def candidateJourneys (tt : Timetable) (from_stops to_stops : List StopId)
    (to_station : Station) (dep_secs_min dep_secs_max rounds : Nat) :
    List Journey :=
  let deps := sortDesc
    (((get_trip_stop_times_in_range tt from_stops dep_secs_min
        dep_secs_max).map (fun tst => tst.dts_dep)).eraseDups)
  deps.filterMap (fun dep_secs =>
    let bag := run tt from_stops to_station dep_secs rounds
    (best_stop_at_target_station to_stops bag).map (fun dest =>
      reconstruct_journey
        ((bag.get (Place.stop dest)).earliest_arrival_time + 1) bag dest))

/-- `run_range_raptor`: the computed candidates filtered by the acceptance
loop (the Python code interleaves computation and filtering; the candidate
computation does not depend on the accumulated list, so the two factor). -/
def run_range_raptor (tt : Timetable) (from_stops to_stops : List StopId)
    (to_station : Station) (dep_secs_min dep_secs_max rounds : Nat) :
    List Journey :=
  acceptJourneys (candidateJourneys tt from_stops to_stops to_station
    dep_secs_min dep_secs_max rounds)

/-- Pointwise non-increase of the global best arrival times between two
states. -/
def BagStarGe (s1 s2 : RaptorState) : Prop :=
  ∀ p, (s2.bagStar.get p).earliest_arrival_time ≤
    (s1.bagStar.get p).earliest_arrival_time

/-- Every stop's global best arrival is at most its arrival in every round
bag. -/
def StarLERound (s : RaptorState) : Prop :=
  ∀ p j, (s.bagStar.get p).earliest_arrival_time ≤
    ((s.bagRound j).get p).earliest_arrival_time

/-- Every round-j label (j at least 1) either still holds the untouched
sentinel or does not regress from the round-(j-1) label. -/
def RoundMono (s : RaptorState) : Prop :=
  ∀ p j, 1 ≤ j →
    ((s.bagRound j).get p).earliest_arrival_time = LARGE_NUMBER ∨
    ((s.bagRound j).get p).earliest_arrival_time ≤
      ((s.bagRound (j - 1)).get p).earliest_arrival_time

/-- Rounds beyond `k` have not been written yet. -/
def FutureBlank (k : Nat) (s : RaptorState) : Prop :=
  ∀ p j, k < j → ((s.bagRound j).get p).earliest_arrival_time = LARGE_NUMBER

/-- Every stop key present in some round bag is present in the global bag. -/
def StopKeys (s : RaptorState) : Prop :=
  ∀ x j, (bagLookup (s.bagRound j) (Place.stop x)).isSome = true →
    (bagLookup s.bagStar (Place.stop x)).isSome = true

/-- The state invariant maintained while round `k` executes. -/
def InvRound (k : Nat) (s : RaptorState) : Prop :=
  StarLERound s ∧ RoundMono s ∧ FutureBlank k s ∧ StopKeys s

/-- Following a recorded from-stop strictly decreases the global best
arrival time. -/
def ChainStrict (s : RaptorState) : Prop :=
  ∀ p b, (s.bagStar.get p).from_stop = some b →
    (s.bagStar.get (Place.stop b)).earliest_arrival_time <
      (s.bagStar.get p).earliest_arrival_time

/-- A route's trips depart any earlier pattern stop strictly before they
arrive at any later pattern stop. -/
def RouteStrict (r : Route) : Prop :=
  ∀ t ∈ r.trips,
    List.Pairwise
      (fun a b => (t.get_stop a).dts_dep < (t.get_stop b).dts_arr) r.stops

/-- All routes of the timetable satisfy `RouteStrict`. -/
def TTStrict (tt : Timetable) : Prop :=
  ∀ r ∈ tt.routes, RouteStrict r

/-- All routes of the timetable have (weakly) non-decreasing trip times,
the literal precondition of the claim. -/
def TTMonotone (tt : Timetable) : Prop :=
  ∀ r ∈ tt.routes, ∀ t ∈ r.trips,
    List.Pairwise
      (fun a b => (t.get_stop a).dts_dep ≤ (t.get_stop b).dts_arr) r.stops

/-- Every transfer layover cost of the timetable is strictly positive. -/
def TransfersPos (tt : Timetable) : Prop :=
  ∀ s, ∀ tr ∈ tt.transfers s, ∀ c, tr.layovertime = some c → 0 < c

instance (r : Route) : Decidable (RouteStrict r) := by
  unfold RouteStrict; exact inferInstance

instance (tt : Timetable) : Decidable (TTStrict tt) := by
  unfold TTStrict; exact inferInstance

instance (tt : Timetable) : Decidable (TTMonotone tt) := by
  unfold TTMonotone; exact inferInstance

/-- Invariant of the held trip during a route scan: the trip belongs to the
scanned route, was boarded at a stop whose global best arrival is at most
the trip's departure there, and that departure is strictly before the
trip's arrival at every stop still to be scanned. -/
def ScanOK (route : Route) (rem : List StopId) (acc : ScanAcc) : Prop :=
  match acc.ct with
  | none => True
  | some t =>
    t ∈ route.trips ∧ ∃ b, acc.bs = some b ∧
      (acc.st.bagStar.get (Place.stop b)).earliest_arrival_time ≤
        (t.get_stop b).dts_dep ∧
      ∀ p ∈ rem, (t.get_stop b).dts_dep < (t.get_stop p).dts_arr

/-- Modelled from the spec: Trip 101 of the 3-trip test fixture, A at 100
to C at 600 (arrival equals departure at each visit, as in the fixture). -/
def t101 : Trip :=
  ⟨101, [⟨101, 0, "A", 100, 100, 0⟩, ⟨101, 1, "C", 600, 600, 0⟩]⟩

/-- Modelled from the spec: Trip 202 of the fixture, C at 660 to F 1500. -/
def t202 : Trip :=
  ⟨202, [⟨202, 0, "C", 660, 660, 0⟩, ⟨202, 1, "F", 1500, 1500, 0⟩]⟩

/-- Modelled from the spec: Trip 303 of the fixture, C 900, X 1200, F 1800. -/
def t303 : Trip :=
  ⟨303, [⟨303, 0, "C", 900, 900, 0⟩, ⟨303, 1, "X", 1200, 1200, 0⟩,
    ⟨303, 2, "F", 1800, 1800, 0⟩]⟩

/-- Route pattern of Trip 101. -/
def r101 : Route := ⟨["A", "C"], [t101]⟩

/-- Route pattern of Trip 202. -/
def r202 : Route := ⟨["C", "F"], [t202]⟩

/-- Route pattern of Trip 303. -/
def r303 : Route := ⟨["C", "X", "F"], [t303]⟩

/-- The destination station F of the fixture queries. -/
def stationF : Station := ⟨"F", ["F"]⟩

/-- Modelled from the spec: the 3-trip fixture timetable (each stop is its
own station, no transfers). -/
def fixtureTT : Timetable :=
  { stops := ["A", "C", "F", "X"]
    stations := [⟨"A", ["A"]⟩, ⟨"C", ["C"]⟩, ⟨"F", ["F"]⟩, ⟨"X", ["X"]⟩]
    trips := [t101, t202, t303]
    trip_stop_times := t101.stop_times ++ t202.stop_times ++ t303.stop_times
    routes := [r101, r202, r303]
    transfers := fun _ => [] }

/-- A zero-duration trip: departs A at 100 and arrives B at 100; its stop
times are (weakly) non-decreasing along the trip. -/
def tzz : Trip :=
  ⟨1, [⟨1, 0, "A", 100, 100, 0⟩, ⟨1, 1, "B", 100, 100, 0⟩]⟩

/-- Route pattern of the zero-duration trip. -/
def rzz : Route := ⟨["A", "B"], [tzz]⟩

/-- Destination station B of the zero-duration example. -/
def stationBz : Station := ⟨"B", ["B"]⟩

/-- A two-stop timetable whose only trip is the zero-duration trip. -/
def ztTT : Timetable :=
  { stops := ["A", "B"]
    stations := [⟨"A", ["A"]⟩, ⟨"B", ["B"]⟩]
    trips := [tzz]
    trip_stop_times := tzz.stop_times
    routes := [rzz]
    transfers := fun _ => [] }

/-- A one-leg journey riding a trip that departs stop A at `d` and arrives
stop B at `a`, used as concrete range-query candidate data. -/
def jrny (d a : Nat) : Journey :=
  ⟨[⟨"A", "B",
    some (TripLike.trip ⟨1, [⟨1, 0, "A", d, d, 0⟩, ⟨1, 1, "B", a, a, 0⟩]⟩),
    a⟩]⟩

/-- A small concrete best-label table: B was reached from A, A is an
origin. -/
def cbBag : Bag :=
  [(Place.stop "A", ⟨50, none, none⟩),
   (Place.stop "B", ⟨100, some TripLike.transferTrip, some "A"⟩)]

/-- Lookup after an in-place update. -/
theorem bagLookup_upd (b : Bag) (p q : Place) (f : Label → Label) :
    bagLookup (Bag.upd b p f) q =
      if q = p then (bagLookup b p).map f else bagLookup b q := by
  induction b with
  | nil => simp [Bag.upd, bagLookup]
  | cons kv t ih =>
    obtain ⟨r, l⟩ := kv
    simp only [Bag.upd] at ih ⊢
    by_cases h1 : r = p
    · subst h1
      rw [if_pos rfl]
      by_cases h2 : q = r
      · subst h2; simp [bagLookup]
      · simp [bagLookup, h2, ih]
    · rw [if_neg h1]
      have hpr : p ≠ r := fun hh => h1 hh.symm
      by_cases h2 : q = r
      · subst h2
        have hqp : q ≠ p := h1
        simp [bagLookup, hqp]
      · simp [bagLookup, h2, hpr, ih]

/-- Updates do not change which keys are present. -/
theorem bagLookup_upd_isSome (b : Bag) (p q : Place) (f : Label → Label) :
    (bagLookup (Bag.upd b p f) q).isSome = (bagLookup b q).isSome := by
  rw [bagLookup_upd]
  by_cases h : q = p
  · subst h
    rw [if_pos rfl]
    cases bagLookup b q <;> simp
  · rw [if_neg h]

/-- Reading a key other than the updated one. -/
theorem Bag.get_upd_ne (b : Bag) (p q : Place) (f : Label → Label)
    (h : q ≠ p) : (Bag.upd b p f).get q = b.get q := by
  simp [Bag.get, bagLookup_upd, h]

/-- Reading the updated key when it is present. -/
theorem Bag.get_upd_some (b : Bag) (p : Place) (f : Label → Label)
    (l : Label) (h : bagLookup b p = some l) :
    (Bag.upd b p f).get p = f l := by
  simp [Bag.get, bagLookup_upd, h]

/-- Updating an absent key changes nothing observable. -/
theorem Bag.get_upd_none (b : Bag) (p : Place) (f : Label → Label)
    (h : bagLookup b p = none) : (Bag.upd b p f).get p = b.get p := by
  simp [Bag.get, bagLookup_upd, h]

/-- Updates keep the key list. -/
theorem Bag.upd_keys (b : Bag) (p : Place) (f : Label → Label) :
    (Bag.upd b p f).map Prod.fst = b.map Prod.fst := by
  induction b with
  | nil => rfl
  | cons kv t ih =>
    obtain ⟨r, l⟩ := kv
    simp only [Bag.upd] at ih ⊢
    by_cases h : r = p
    · rw [if_pos h]
      simp only [List.map_cons, ih]
    · rw [if_neg h]
      simp only [List.map_cons, ih]

/-- Lookup distributes over bag concatenation. -/
theorem bagLookup_append (a b : Bag) (q : Place) :
    bagLookup (a ++ b) q =
      match bagLookup a q with
      | some l => some l
      | none => bagLookup b q := by
  induction a with
  | nil => simp [bagLookup]
  | cons kv t ih =>
    by_cases h : q = kv.1 <;> simp [bagLookup, h, ih]

/-- In a constant-initialized bag every key reads the initial label. -/
theorem Bag.get_map_init {α : Type} (l : List α) (g : α → Place) (q : Place) :
    Bag.get (l.map (fun s => (g s, Label.init))) q = Label.init := by
  induction l with
  | nil => rfl
  | cons a t ih =>
    simp only [List.map_cons, Bag.get, bagLookup]
    by_cases h : q = g a
    · simp [h]
    · rw [if_neg h]
      exact ih

/-- Station keys never collide with stop keys. -/
theorem bagLookup_station_map_stop (l : List Station) (x : StopId) :
    bagLookup (l.map (fun st => (Place.station st.name, Label.init)))
      (Place.stop x) = none := by
  induction l with
  | nil => rfl
  | cons a t ih => simp [bagLookup, ih]

/-- The empty bag reads the initial label everywhere. -/
theorem Bag.get_nil (q : Place) : Bag.get [] q = Label.init := rfl

/-- A predicate preserved by every step of a left fold holds of the fold. -/
theorem foldl_preserves {α : Type} {β : Type} (f : α → β → α) (P : α → Prop)
    (l : List β) (a : α) (h0 : P a)
    (hstep : ∀ x b, b ∈ l → P x → P (f x b)) : P (List.foldl f a l) := by
  induction l generalizing a with
  | nil => exact h0
  | cons b t ih =>
    exact ih (f a b) (hstep a b (by simp) h0)
      (fun x c hc hx => hstep x c (by simp [hc]) hx)

/-- The global bag after a paired write. -/
theorem pairedWrite_bagStar (s : RaptorState) (k : Nat) (p : Place) (v : Nat)
    (tr : Option TripLike) (fs : Option StopId) :
    (pairedWrite s k p v tr fs).bagStar =
      Bag.upd s.bagStar p (fun l => l.update (some v) tr fs) := rfl

/-- The round bags after a paired write. -/
theorem pairedWrite_bagRound (s : RaptorState) (k : Nat) (p : Place) (v : Nat)
    (tr : Option TripLike) (fs : Option StopId) (j : Nat) :
    (pairedWrite s k p v tr fs).bagRound j =
      if j = k then Bag.upd (s.bagRound k) p (fun l => l.update (some v) tr fs)
      else s.bagRound j := rfl

/-- An updated label carries the written arrival time. -/
theorem Label.update_eat (l : Label) (v : Nat) (tr : Option TripLike)
    (fs : Option StopId) :
    (Label.update l (some v) tr fs).earliest_arrival_time = v := rfl

/-- An updated label carries the written from-stop. -/
theorem Label.update_from (l : Label) (v : Nat) (tr : Option TripLike)
    (b : StopId) :
    (Label.update l (some v) tr (some b)).from_stop = some b := rfl

/-- Arrival time read from the global bag after a paired write: either the
key is untouched, or it is the written key, was present, and now reads the
written value. -/
theorem pairedWrite_star_eat_or (s : RaptorState) (k : Nat) (p : Place)
    (v : Nat) (tr : Option TripLike) (fs : Option StopId) (q : Place) :
    ((pairedWrite s k p v tr fs).bagStar.get q) = s.bagStar.get q ∨
      (q = p ∧ (bagLookup s.bagStar p).isSome = true ∧
        ((pairedWrite s k p v tr fs).bagStar.get q).earliest_arrival_time = v) := by
  rw [pairedWrite_bagStar]
  by_cases hq : q = p
  · subst hq
    cases hl : bagLookup s.bagStar q with
    | none => exact Or.inl (Bag.get_upd_none _ _ _ hl)
    | some l =>
      refine Or.inr ⟨rfl, by simp [hl], ?_⟩
      rw [Bag.get_upd_some _ _ _ _ hl]
      rfl
  · exact Or.inl (Bag.get_upd_ne _ _ _ _ hq)

/-- Arrival time read from a round bag after a paired write. -/
theorem pairedWrite_round_eat_or (s : RaptorState) (k : Nat) (p : Place)
    (v : Nat) (tr : Option TripLike) (fs : Option StopId) (j : Nat) (q : Place) :
    ((pairedWrite s k p v tr fs).bagRound j).get q = (s.bagRound j).get q ∨
      (j = k ∧ q = p ∧ (bagLookup (s.bagRound k) p).isSome = true ∧
        (((pairedWrite s k p v tr fs).bagRound j).get q).earliest_arrival_time = v) := by
  rw [pairedWrite_bagRound]
  by_cases hj : j = k
  · subst hj
    rw [if_pos rfl]
    by_cases hq : q = p
    · subst hq
      cases hl : bagLookup (s.bagRound j) q with
      | none => exact Or.inl (Bag.get_upd_none _ _ _ hl)
      | some l =>
        refine Or.inr ⟨rfl, rfl, by simp [hl], ?_⟩
        rw [Bag.get_upd_some _ _ _ _ hl]
        rfl
    · exact Or.inl (Bag.get_upd_ne _ _ _ _ hq)
  · rw [if_neg hj]
    exact Or.inl rfl

/-- Exact description of the global bag after a paired write. -/
theorem pairedWrite_star_cases (s : RaptorState) (k : Nat) (p : Place)
    (v : Nat) (tr : Option TripLike) (fs : Option StopId) (q : Place) :
    ((pairedWrite s k p v tr fs).bagStar.get q = s.bagStar.get q ∧
      (q ≠ p ∨ bagLookup s.bagStar p = none)) ∨
    (q = p ∧ (bagLookup s.bagStar p).isSome = true ∧
      (pairedWrite s k p v tr fs).bagStar.get q =
        (s.bagStar.get p).update (some v) tr fs) := by
  rw [pairedWrite_bagStar]
  by_cases hq : q = p
  · subst hq
    cases hl : bagLookup s.bagStar q with
    | none => exact Or.inl ⟨Bag.get_upd_none _ _ _ hl, Or.inr rfl⟩
    | some l =>
      refine Or.inr ⟨rfl, by simp [hl], ?_⟩
      rw [Bag.get_upd_some _ _ _ _ hl]
      simp [Bag.get, hl]
  · exact Or.inl ⟨Bag.get_upd_ne _ _ _ _ hq, Or.inl hq⟩

/-- Exact description of the round bags after a paired write. -/
theorem pairedWrite_round_cases (s : RaptorState) (k : Nat) (p : Place)
    (v : Nat) (tr : Option TripLike) (fs : Option StopId) (j : Nat) (q : Place) :
    (((pairedWrite s k p v tr fs).bagRound j).get q = (s.bagRound j).get q ∧
      (j ≠ k ∨ q ≠ p ∨ bagLookup (s.bagRound k) p = none)) ∨
    (j = k ∧ q = p ∧ (bagLookup (s.bagRound k) p).isSome = true ∧
      ((pairedWrite s k p v tr fs).bagRound j).get q =
        ((s.bagRound k).get p).update (some v) tr fs) := by
  rw [pairedWrite_bagRound]
  by_cases hj : j = k
  · subst hj
    rw [if_pos rfl]
    by_cases hq : q = p
    · subst hq
      cases hl : bagLookup (s.bagRound j) q with
      | none => exact Or.inl ⟨Bag.get_upd_none _ _ _ hl, Or.inr (Or.inr rfl)⟩
      | some l =>
        refine Or.inr ⟨rfl, rfl, by simp [hl], ?_⟩
        rw [Bag.get_upd_some _ _ _ _ hl]
        simp [Bag.get, hl]
    · exact Or.inl ⟨Bag.get_upd_ne _ _ _ _ hq, Or.inr (Or.inl hq)⟩
  · rw [if_neg hj]
    exact Or.inl ⟨rfl, Or.inl hj⟩

/-- A paired write does not change which keys the global bag holds. -/
theorem pairedWrite_star_isSome (s : RaptorState) (k : Nat) (p : Place)
    (v : Nat) (tr : Option TripLike) (fs : Option StopId) (q : Place) :
    (bagLookup (pairedWrite s k p v tr fs).bagStar q).isSome =
      (bagLookup s.bagStar q).isSome := by
  rw [pairedWrite_bagStar, bagLookup_upd_isSome]

/-- A paired write does not change which keys the round bags hold. -/
theorem pairedWrite_round_isSome (s : RaptorState) (k : Nat) (p : Place)
    (v : Nat) (tr : Option TripLike) (fs : Option StopId) (j : Nat) (q : Place) :
    (bagLookup ((pairedWrite s k p v tr fs).bagRound j) q).isSome =
      (bagLookup (s.bagRound j) q).isSome := by
  rw [pairedWrite_bagRound]
  by_cases hj : j = k
  · subst hj
    rw [if_pos rfl, bagLookup_upd_isSome]
  · rw [if_neg hj]

/-- A guarded paired write at a stop key preserves the round invariant. -/
theorem pairedWrite_inv (s : RaptorState) (k : Nat) (x : StopId) (v : Nat)
    (tr : Option TripLike) (fs : Option StopId) (hk : 1 ≤ k)
    (hv : v < (s.bagStar.get (Place.stop x)).earliest_arrival_time)
    (h : InvRound k s) :
    InvRound k (pairedWrite s k (Place.stop x) v tr fs) := by
  obtain ⟨h1, h2, h3, h4⟩ := h
  refine ⟨?_, ?_, ?_, ?_⟩
  · -- StarLERound
    intro q j
    rcases pairedWrite_star_cases s k (Place.stop x) v tr fs q with
      ⟨hs, hside⟩ | ⟨hqp, hsome, hs⟩
    · rcases pairedWrite_round_cases s k (Place.stop x) v tr fs j q with
        ⟨hr, _⟩ | ⟨hjk, hqp, hrsome, hr⟩
      · rw [hs, hr]; exact h1 q j
      · subst hqp
        rcases hside with hne | hnone
        · exact absurd rfl hne
        · have hsome2 := h4 x k hrsome
          rw [hnone] at hsome2
          simp at hsome2
    · subst hqp
      rw [hs, Label.update_eat]
      rcases pairedWrite_round_cases s k (Place.stop x) v tr fs j
        (Place.stop x) with ⟨hr, _⟩ | ⟨hjk, _, hrsome, hr⟩
      · rw [hr]
        exact le_trans (le_of_lt hv) (h1 (Place.stop x) j)
      · rw [hr, Label.update_eat]
  · -- RoundMono
    intro q j hj
    rcases pairedWrite_round_cases s k (Place.stop x) v tr fs j q with
      ⟨hr, _⟩ | ⟨hjk, hqp, hrsome, hr⟩
    · rcases pairedWrite_round_cases s k (Place.stop x) v tr fs (j - 1) q with
        ⟨hr2, _⟩ | ⟨hjk2, hqp2, hrsome2, hr2⟩
      · rw [hr, hr2]; exact h2 q j hj
      · subst hqp2
        have hjk1 : j = k + 1 := by omega
        rw [hr, hjk1]
        exact Or.inl (h3 (Place.stop x) (k + 1) (by omega))
    · subst hqp
      have hne : j - 1 ≠ k := by omega
      rcases pairedWrite_round_cases s k (Place.stop x) v tr fs (j - 1)
        (Place.stop x) with ⟨hr2, _⟩ | ⟨hjk2, _, _, _⟩
      · rw [hr, hr2, Label.update_eat]
        exact Or.inr (le_trans (le_of_lt hv) (h1 (Place.stop x) (j - 1)))
      · exact absurd hjk2 hne
  · -- FutureBlank
    intro q j hjk
    rcases pairedWrite_round_cases s k (Place.stop x) v tr fs j q with
      ⟨hr, _⟩ | ⟨hjk2, _, _, _⟩
    · rw [hr]; exact h3 q j hjk
    · omega
  · -- StopKeys
    intro y j hy
    rw [pairedWrite_round_isSome] at hy
    rw [pairedWrite_star_isSome]
    exact h4 y j hy

/-- A paired write whose value is at most the current best arrival never
increases any global best arrival. -/
theorem pairedWrite_starGe (s : RaptorState) (k : Nat) (p : Place) (v : Nat)
    (tr : Option TripLike) (fs : Option StopId)
    (hv : v ≤ (s.bagStar.get p).earliest_arrival_time) :
    BagStarGe s (pairedWrite s k p v tr fs) := by
  intro q
  rcases pairedWrite_star_cases s k p v tr fs q with ⟨hs, _⟩ | ⟨hqp, _, hs⟩
  · rw [hs]
  · subst hqp
    rw [hs, Label.update_eat]
    exact hv

/-- A guarded paired write recording a from-stop whose best arrival is
strictly below the written value preserves strictness of from-chains. -/
theorem pairedWrite_chain (s : RaptorState) (k : Nat) (x : StopId) (v : Nat)
    (tr : Option TripLike) (b : StopId)
    (hv : v < (s.bagStar.get (Place.stop x)).earliest_arrival_time)
    (hsb : (s.bagStar.get (Place.stop b)).earliest_arrival_time < v)
    (hch : ChainStrict s) :
    ChainStrict (pairedWrite s k (Place.stop x) v tr (some b)) := by
  intro q w hqw
  rcases pairedWrite_star_cases s k (Place.stop x) v tr (some b) q with
    ⟨hs, _⟩ | ⟨hqp, _, hs⟩
  · rw [hs] at hqw
    have hold := hch q w hqw
    rcases pairedWrite_star_cases s k (Place.stop x) v tr (some b)
      (Place.stop w) with ⟨hs2, _⟩ | ⟨hqp2, _, hs2⟩
    · rw [hs2, hs]; exact hold
    · rw [hs2, hs, Label.update_eat]
      rw [hqp2] at hold
      exact lt_trans hv hold
  · subst hqp
    rw [hs, Label.update_from] at hqw
    have hbw : b = w := Option.some.inj hqw
    subst hbw
    have hRv : ((pairedWrite s k (Place.stop x) v tr
        (some b)).bagStar.get (Place.stop x)).earliest_arrival_time = v := by
      rw [hs, Label.update_eat]
    rw [hRv]
    rcases pairedWrite_star_cases s k (Place.stop x) v tr (some b)
      (Place.stop b) with ⟨hs2, _⟩ | ⟨hqp2, _, hs2⟩
    · rw [hs2]; exact hsb
    · have hxb := hsb
      rw [hqp2] at hxb
      omega

/-- Labels updated without a from-stop keep their old from-stop. -/
theorem Label.update_from_none (l : Label) (e : Option Nat)
    (tr : Option TripLike) :
    (Label.update l e tr none).from_stop = l.from_stop := rfl

/-- A bag reads the initial label at absent keys. -/
theorem Bag.get_of_lookup_none (b : Bag) (p : Place)
    (h : bagLookup b p = none) : b.get p = Label.init := by
  simp [Bag.get, h]

/-- Changing the destination bound does not affect the round invariant. -/
theorem InvRound_eaad (k : Nat) (s : RaptorState) (v : Nat)
    (h : InvRound k s) :
    InvRound k { s with earliestArrivalAtDestination := v } := h

/-- Changing the destination bound does not affect the global arrivals. -/
theorem BagStarGe_eaad (s1 s2 : RaptorState) (v : Nat)
    (h : BagStarGe s1 s2) :
    BagStarGe s1 { s2 with earliestArrivalAtDestination := v } := h

/-- Changing the destination bound does not affect chain strictness. -/
theorem ChainStrict_eaad (s : RaptorState) (v : Nat) (h : ChainStrict s) :
    ChainStrict { s with earliestArrivalAtDestination := v } := h

/-- `improveStep` does not change the held trip. -/
theorem improveStep_ct (k : Nat) (acc : ScanAcc) (p : StopId) :
    (improveStep k acc p).ct = acc.ct := by
  cases hct : acc.ct with
  | none => simp [improveStep, hct]
  | some t =>
    simp only [improveStep, hct]
    split
    · split <;> rfl
    · exact hct

/-- `improveStep` does not change the boarding stop. -/
theorem improveStep_bs (k : Nat) (acc : ScanAcc) (p : StopId) :
    (improveStep k acc p).bs = acc.bs := by
  cases hct : acc.ct with
  | none => simp [improveStep, hct]
  | some t =>
    simp only [improveStep, hct]
    split
    · split <;> rfl
    · rfl

/-- `improveStep` preserves the round invariant. -/
theorem improveStep_inv (k : Nat) (acc : ScanAcc) (p : StopId) (hk : 1 ≤ k)
    (h : InvRound k acc.st) : InvRound k (improveStep k acc p).st := by
  cases hct : acc.ct with
  | none => simpa [improveStep, hct] using h
  | some t =>
    simp only [improveStep, hct]
    split
    · rename_i hcond
      split
      · exact InvRound_eaad k _ _
          (pairedWrite_inv acc.st k p ((t.get_stop p).dts_arr)
            (some (TripLike.trip t)) acc.bs hk hcond.1 h)
      · exact pairedWrite_inv acc.st k p ((t.get_stop p).dts_arr)
          (some (TripLike.trip t)) acc.bs hk hcond.1 h
    · exact h

/-- `improveStep` never increases a global best arrival. -/
theorem improveStep_starGe (k : Nat) (acc : ScanAcc) (p : StopId) :
    BagStarGe acc.st (improveStep k acc p).st := by
  cases hct : acc.ct with
  | none =>
    simp only [improveStep, hct]
    exact fun q => le_refl _
  | some t =>
    simp only [improveStep, hct]
    split
    · rename_i hcond
      split
      · exact BagStarGe_eaad acc.st _ _
          (pairedWrite_starGe acc.st k (Place.stop p) ((t.get_stop p).dts_arr)
            (some (TripLike.trip t)) acc.bs (le_of_lt hcond.1))
      · exact pairedWrite_starGe acc.st k (Place.stop p)
          ((t.get_stop p).dts_arr) (some (TripLike.trip t)) acc.bs
          (le_of_lt hcond.1)
    · exact fun q => le_refl _

/-- `boardStep` only changes the held trip and boarding stop. -/
theorem boardStep_st (k : Nat) (route : Route) (acc : ScanAcc) (p : StopId) :
    (boardStep k route acc p).st = acc.st := by
  simp only [boardStep]
  split
  · split
    · split <;> rfl
    · rfl
  · rfl

/-- `boardStep` does not touch the collected new stops. -/
theorem boardStep_newStops (k : Nat) (route : Route) (acc : ScanAcc)
    (p : StopId) : (boardStep k route acc p).newStops = acc.newStops := by
  simp only [boardStep]
  split
  · split
    · split <;> rfl
    · rfl
  · rfl

/-- One scan step preserves the round invariant. -/
theorem traverseStop_inv (k : Nat) (route : Route) (acc : ScanAcc)
    (p : StopId) (hk : 1 ≤ k) (h : InvRound k acc.st) :
    InvRound k (traverseStop k route acc p).st := by
  unfold traverseStop
  rw [boardStep_st]
  exact improveStep_inv k acc p hk h

/-- One scan step never increases a global best arrival. -/
theorem traverseStop_starGe (k : Nat) (route : Route) (acc : ScanAcc)
    (p : StopId) : BagStarGe acc.st (traverseStop k route acc p).st := by
  unfold traverseStop
  rw [boardStep_st]
  exact improveStep_starGe k acc p

/-- `BagStarGe` is transitive. -/
theorem bagStarGe_trans {s1 s2 s3 : RaptorState} (h1 : BagStarGe s1 s2)
    (h2 : BagStarGe s2 s3) : BagStarGe s1 s3 :=
  fun q => le_trans (h2 q) (h1 q)

/-- Scanning one route preserves the round invariant. -/
theorem traverseRoute_inv (k : Nat) (acc : RaptorState × List StopId)
    (rp : Route × StopId) (hk : 1 ≤ k) (h : InvRound k acc.1) :
    InvRound k (traverseRoute k acc rp).1 := by
  unfold traverseRoute
  exact foldl_preserves (traverseStop k rp.1) (fun a => InvRound k a.st) _
    ⟨acc.1, acc.2, none, none⟩ h
    (fun x b _ hx => traverseStop_inv k rp.1 x b hk hx)

/-- Scanning one route never increases a global best arrival. -/
theorem traverseRoute_starGe (k : Nat) (acc : RaptorState × List StopId)
    (rp : Route × StopId) : BagStarGe acc.1 (traverseRoute k acc rp).1 := by
  unfold traverseRoute
  exact foldl_preserves (traverseStop k rp.1)
    (fun a => BagStarGe acc.1 a.st) _ ⟨acc.1, acc.2, none, none⟩
    (fun q => le_refl _)
    (fun x b _ hx => bagStarGe_trans hx (traverseStop_starGe k rp.1 x b))

/-- The route-traversal phase preserves the round invariant. -/
theorem traverse_routes_inv (k : Nat) (st : RaptorState)
    (q : List (Route × StopId)) (hk : 1 ≤ k) (h : InvRound k st) :
    InvRound k (traverse_routes k st q).1 := by
  unfold traverse_routes
  exact foldl_preserves (traverseRoute k) (fun a => InvRound k a.1) q
    (st, []) h (fun x b _ hx => traverseRoute_inv k x b hk hx)

/-- The route-traversal phase never increases a global best arrival. -/
theorem traverse_routes_starGe (k : Nat) (st : RaptorState)
    (q : List (Route × StopId)) : BagStarGe st (traverse_routes k st q).1 := by
  unfold traverse_routes
  exact foldl_preserves (traverseRoute k) (fun a => BagStarGe st a.1) q
    (st, []) (fun p => le_refl _)
    (fun x b _ hx => bagStarGe_trans hx (traverseRoute_starGe k x b))

/-- One transfer relaxation preserves the round invariant. -/
theorem relaxOne_inv (k : Nat) (cur : StopId) (ts : Nat)
    (acc : RaptorState × List StopId) (tr : Transfer) (hk : 1 ≤ k)
    (h : InvRound k acc.1) : InvRound k (relaxOne k cur ts acc tr).1 := by
  cases hc : tr.layovertime with
  | none => simpa [relaxOne, hc] using h
  | some c =>
    simp only [relaxOne, hc]
    split
    · rename_i hguard
      exact pairedWrite_inv acc.1 k tr.to_stop (ts + c)
        (some TripLike.transferTrip) (some cur) hk hguard h
    · exact h

/-- One transfer relaxation never increases a global best arrival. -/
theorem relaxOne_starGe (k : Nat) (cur : StopId) (ts : Nat)
    (acc : RaptorState × List StopId) (tr : Transfer) :
    BagStarGe acc.1 (relaxOne k cur ts acc tr).1 := by
  cases hc : tr.layovertime with
  | none =>
    simp only [relaxOne, hc]
    exact fun q => le_refl _
  | some c =>
    simp only [relaxOne, hc]
    split
    · rename_i hguard
      exact pairedWrite_starGe acc.1 k (Place.stop tr.to_stop) (ts + c)
        (some TripLike.transferTrip) (some cur) (le_of_lt hguard)
    · exact fun q => le_refl _

/-- The transfer-relaxation phase preserves the round invariant. -/
theorem add_transfer_time_inv (tt : Timetable) (k : Nat) (st : RaptorState)
    (marked : List StopId) (hk : 1 ≤ k) (h : InvRound k st) :
    InvRound k (add_transfer_time tt k st marked).1 := by
  unfold add_transfer_time
  exact foldl_preserves _ (fun a => InvRound k a.1) marked (st, []) h
    (fun x cur _ hx =>
      foldl_preserves _ (fun a => InvRound k a.1) _ x hx
        (fun y tr _ hy => relaxOne_inv k cur _ y tr hk hy))

/-- The transfer-relaxation phase never increases a global best arrival. -/
theorem add_transfer_time_starGe (tt : Timetable) (k : Nat)
    (st : RaptorState) (marked : List StopId) :
    BagStarGe st (add_transfer_time tt k st marked).1 := by
  unfold add_transfer_time
  exact foldl_preserves _ (fun a => BagStarGe st a.1) marked (st, [])
    (fun q => le_refl _)
    (fun x cur _ hx =>
      foldl_preserves _ (fun a => BagStarGe st a.1) _ x hx
        (fun y tr _ hy => bagStarGe_trans hy (relaxOne_starGe k cur _ y tr)))

/-- `FutureBlank` only weakens as the round counter grows. -/
theorem FutureBlank_mono {k k2 : Nat} {s : RaptorState} (hkk : k ≤ k2)
    (h : FutureBlank k s) : FutureBlank k2 s :=
  fun p j hj => h p j (lt_of_le_of_lt hkk hj)

/-- The round invariant only weakens as the round counter grows. -/
theorem InvRound_mono {k k2 : Nat} {s : RaptorState} (hkk : k ≤ k2)
    (h : InvRound k s) : InvRound k2 s :=
  ⟨h.1, h.2.1, FutureBlank_mono hkk h.2.2.1, h.2.2.2⟩

/-- The round loop preserves the round invariant. -/
theorem runRounds_inv (tt : Timetable) (fuel : Nat) :
    ∀ (k : Nat) (st : RaptorState) (marked : List StopId), 1 ≤ k →
      InvRound k st → InvRound (k + fuel) (runRounds tt k fuel st marked) := by
  induction fuel with
  | zero =>
    intro k st marked hk h
    simpa [runRounds] using h
  | succ n ih =>
    intro k st marked hk h
    simp only [runRounds]
    split
    · exact InvRound_mono (by omega) h
    · have h1 := traverse_routes_inv k st (accumulate_routes tt marked) hk h
      have h2 := add_transfer_time_inv tt k
        (traverse_routes k st (accumulate_routes tt marked)).1
        (traverse_routes k st (accumulate_routes tt marked)).2 hk h1
      have h3 := ih (k + 1)
        (add_transfer_time tt k
          (traverse_routes k st (accumulate_routes tt marked)).1
          (traverse_routes k st (accumulate_routes tt marked)).2).1
        (((traverse_routes k st (accumulate_routes tt marked)).2 ++
          (add_transfer_time tt k
            (traverse_routes k st (accumulate_routes tt marked)).1
            (traverse_routes k st (accumulate_routes tt marked)).2).2).eraseDups)
        (by omega) (InvRound_mono (by omega) h2)
      rw [show k + (n + 1) = k + 1 + n from by omega]
      exact h3

/-- The round loop never increases a global best arrival. -/
theorem runRounds_starGe (tt : Timetable) (fuel : Nat) :
    ∀ (k : Nat) (st : RaptorState) (marked : List StopId),
      BagStarGe st (runRounds tt k fuel st marked) := by
  induction fuel with
  | zero =>
    intro k st marked
    simp only [runRounds]
    exact fun q => le_refl _
  | succ n ih =>
    intro k st marked
    simp only [runRounds]
    split
    · exact fun q => le_refl _
    · exact bagStarGe_trans
        (bagStarGe_trans (traverse_routes_starGe k st _)
          (add_transfer_time_starGe tt k _ _))
        (ih (k + 1) _ _)

/-- Joining two constant-initialized bags still reads the initial label
everywhere. -/
theorem Bag.get_append_init {α β : Type} (l1 : List α) (g1 : α → Place)
    (l2 : List β) (g2 : β → Place) (q : Place) :
    Bag.get (l1.map (fun s => (g1 s, Label.init)) ++
      l2.map (fun s => (g2 s, Label.init))) q = Label.init := by
  unfold Bag.get
  rw [bagLookup_append]
  cases h1 : bagLookup (l1.map (fun s => (g1 s, Label.init))) q with
  | none =>
    have h2 := Bag.get_map_init l2 g2 q
    unfold Bag.get at h2
    simpa using h2
  | some l =>
    have h2 := Bag.get_map_init l1 g1 q
    unfold Bag.get at h2
    rw [h1] at h2
    simpa using h2

/-- A stop key present in the initial round bag is present in the initial
global bag. -/
theorem roundBag_stop_isSome (stops : List StopId) (stations : List Station)
    (x : StopId)
    (h : (bagLookup ((stops.map fun s => (Place.stop s, Label.init)) ++
      (stations.map fun st => (Place.station st.name, Label.init)))
        (Place.stop x)).isSome = true) :
    (bagLookup (stops.map fun s => (Place.stop s, Label.init))
      (Place.stop x)).isSome = true := by
  rw [bagLookup_append] at h
  cases h1 : bagLookup (stops.map fun s => (Place.stop s, Label.init))
      (Place.stop x) with
  | none =>
    rw [h1, bagLookup_station_map_stop] at h
    simp at h
  | some l => simp

/-- All properties of the initialized state needed downstream: the round
invariant at round 0 and the absence of any recorded from-stop. -/
theorem initState_props (tt : Timetable) (from_stops : List StopId)
    (to_station : Station) (dep : Nat) (rounds : Nat)
    (hdep : dep ≤ LARGE_NUMBER) :
    InvRound 0 (initState tt from_stops to_station dep rounds) ∧
    ∀ p, ((initState tt from_stops to_station dep rounds).bagStar.get
      p).from_stop = none := by
  unfold initState
  refine foldl_preserves _
    (fun st => InvRound 0 st ∧
      ∀ p, (st.bagStar.get p).from_stop = none) from_stops _
    ⟨⟨?_, ?_, ?_, ?_⟩, ?_⟩ ?_
  · -- base StarLERound
    intro q j
    have hstar : (initBase tt to_station rounds).bagStar.get q = Label.init :=
      Bag.get_map_init _ _ _
    have hround : ((initBase tt to_station rounds).bagRound j).get q =
        Label.init := by
      show Bag.get (if j ≤ rounds then _ ++ _ else []) q = Label.init
      split
      · exact Bag.get_append_init _ _ _ _ _
      · rfl
    rw [hstar, hround]
  · -- base RoundMono
    intro q j hj
    refine Or.inl ?_
    show (Bag.get (if j ≤ rounds then _ ++ _ else []) q).earliest_arrival_time
      = LARGE_NUMBER
    split
    · rw [Bag.get_append_init]; rfl
    · rfl
  · -- base FutureBlank
    intro q j hj
    show (Bag.get (if j ≤ rounds then _ ++ _ else []) q).earliest_arrival_time
      = LARGE_NUMBER
    split
    · rw [Bag.get_append_init]; rfl
    · rfl
  · -- base StopKeys
    intro x j h
    have h2 : (bagLookup (if j ≤ rounds then
        (tt.stops.map fun s => (Place.stop s, Label.init)) ++
        (tt.stations.map fun st => (Place.station st.name, Label.init))
        else []) (Place.stop x)).isSome = true := h
    split at h2
    · exact roundBag_stop_isSome _ _ _ h2
    · simp [bagLookup] at h2
  · -- base from-stop none
    intro p
    show (Bag.get (tt.stops.map fun s => (Place.stop s, Label.init))
      p).from_stop = none
    rw [Bag.get_map_init]
    rfl
  · -- step preserves everything
    intro st fs _ hP
    obtain ⟨⟨h1, h2, h3, h4⟩, h5⟩ := hP
    have hpw : ({ st with
        bagRound := updRound st.bagRound 0 (Place.stop fs)
          (fun l => l.update (some dep) none none)
        bagStar := st.bagStar.upd (Place.stop fs)
          (fun l => l.update (some dep) none none) } : RaptorState) =
        pairedWrite st 0 (Place.stop fs) dep none none := rfl
    rw [hpw]
    refine ⟨⟨?_, ?_, ?_, ?_⟩, ?_⟩
    · -- StarLERound
      intro q j
      rcases pairedWrite_star_cases st 0 (Place.stop fs) dep none none q with
        ⟨hs, hside⟩ | ⟨hqp, hsome, hs⟩
      · rcases pairedWrite_round_cases st 0 (Place.stop fs) dep none none j q
          with ⟨hr, _⟩ | ⟨hj0, hqp, hrsome, hr⟩
        · rw [hs, hr]; exact h1 q j
        · subst hqp
          rcases hside with hne | hnone
          · exact absurd rfl hne
          · have hsome2 := h4 fs 0 hrsome
            rw [hnone] at hsome2
            simp at hsome2
      · subst hqp
        rw [hs, Label.update_eat]
        rcases pairedWrite_round_cases st 0 (Place.stop fs) dep none none j
          (Place.stop fs) with ⟨hr, hside2⟩ | ⟨hj0, _, hrsome, hr⟩
        · rw [hr]
          by_cases hj : j = 0
          · subst hj
            rcases hside2 with h0 | hqp2 | hnone
            · exact absurd rfl h0
            · exact absurd rfl hqp2
            · rw [Bag.get_of_lookup_none _ _ hnone]
              exact hdep
          · rw [h3 (Place.stop fs) j (by omega)]
            exact hdep
        · rw [hr, Label.update_eat]
    · -- RoundMono
      intro q j hj
      rcases pairedWrite_round_cases st 0 (Place.stop fs) dep none none j q
        with ⟨hr, _⟩ | ⟨hj0, _, _, _⟩
      · rw [hr]
        exact Or.inl (h3 q j (by omega))
      · omega
    · -- FutureBlank
      intro q j hj
      rcases pairedWrite_round_cases st 0 (Place.stop fs) dep none none j q
        with ⟨hr, _⟩ | ⟨hj0, _, _, _⟩
      · rw [hr]; exact h3 q j hj
      · omega
    · -- StopKeys
      intro y j hy
      rw [pairedWrite_round_isSome] at hy
      rw [pairedWrite_star_isSome]
      exact h4 y j hy
    · -- from-stop still none
      intro p
      rcases pairedWrite_star_cases st 0 (Place.stop fs) dep none none p with
        ⟨hs, _⟩ | ⟨hqp, _, hs⟩
      · rw [hs]; exact h5 p
      · rw [hs, Label.update_from_none]
        subst hqp
        exact h5 _

/-- States with no recorded from-stop have strict chains vacuously. -/
theorem chainStrict_of_fromNone (s : RaptorState)
    (h : ∀ p, (s.bagStar.get p).from_stop = none) : ChainStrict s := by
  intro p b hpb
  rw [h p] at hpb
  exact Option.noConfusion hpb

/-- The final state of a run satisfies the round invariant, so in
particular `RoundMono`. -/
theorem runState_inv (tt : Timetable) (from_stops : List StopId)
    (to_station : Station) (dep : Nat) (rounds : Nat)
    (hdep : dep ≤ LARGE_NUMBER) :
    InvRound (1 + rounds)
      (runState tt from_stops to_station dep rounds) := by
  unfold runState
  exact runRounds_inv tt rounds 1 (initState tt from_stops to_station dep
    rounds) from_stops (le_refl 1)
    (InvRound_mono (by omega)
      (initState_props tt from_stops to_station dep rounds hdep).1)

/-- `improveStep` does not change the key set of the global bag. -/
theorem improveStep_keys (k : Nat) (acc : ScanAcc) (p : StopId) :
    (improveStep k acc p).st.bagStar.map Prod.fst =
      acc.st.bagStar.map Prod.fst := by
  cases hct : acc.ct with
  | none => simp [improveStep, hct]
  | some t =>
    simp only [improveStep, hct]
    split
    · split
      · exact Bag.upd_keys acc.st.bagStar (Place.stop p) _
      · exact Bag.upd_keys acc.st.bagStar (Place.stop p) _
    · rfl

/-- One scan step does not change the key set of the global bag. -/
theorem traverseStop_keys (k : Nat) (route : Route) (acc : ScanAcc)
    (p : StopId) :
    (traverseStop k route acc p).st.bagStar.map Prod.fst =
      acc.st.bagStar.map Prod.fst := by
  unfold traverseStop
  rw [boardStep_st]
  exact improveStep_keys k acc p

/-- Scanning one route does not change the key set of the global bag. -/
theorem traverseRoute_keys (k : Nat) (acc : RaptorState × List StopId)
    (rp : Route × StopId) :
    (traverseRoute k acc rp).1.bagStar.map Prod.fst =
      acc.1.bagStar.map Prod.fst := by
  unfold traverseRoute
  exact foldl_preserves (traverseStop k rp.1)
    (fun a => a.st.bagStar.map Prod.fst = acc.1.bagStar.map Prod.fst) _
    ⟨acc.1, acc.2, none, none⟩ rfl
    (fun x b _ hx => (traverseStop_keys k rp.1 x b).trans hx)

/-- The route-traversal phase does not change the global key set. -/
theorem traverse_routes_keys (k : Nat) (st : RaptorState)
    (q : List (Route × StopId)) :
    (traverse_routes k st q).1.bagStar.map Prod.fst =
      st.bagStar.map Prod.fst := by
  unfold traverse_routes
  exact foldl_preserves (traverseRoute k)
    (fun a => a.1.bagStar.map Prod.fst = st.bagStar.map Prod.fst) q
    (st, []) rfl (fun x b _ hx => (traverseRoute_keys k x b).trans hx)

/-- One transfer relaxation does not change the global key set. -/
theorem relaxOne_keys (k : Nat) (cur : StopId) (ts : Nat)
    (acc : RaptorState × List StopId) (tr : Transfer) :
    (relaxOne k cur ts acc tr).1.bagStar.map Prod.fst =
      acc.1.bagStar.map Prod.fst := by
  cases hc : tr.layovertime with
  | none => simp [relaxOne, hc]
  | some c =>
    simp only [relaxOne, hc]
    split
    · exact Bag.upd_keys acc.1.bagStar (Place.stop tr.to_stop) _
    · rfl

/-- The transfer-relaxation phase does not change the global key set. -/
theorem add_transfer_time_keys (tt : Timetable) (k : Nat) (st : RaptorState)
    (marked : List StopId) :
    (add_transfer_time tt k st marked).1.bagStar.map Prod.fst =
      st.bagStar.map Prod.fst := by
  unfold add_transfer_time
  exact foldl_preserves _
    (fun a => a.1.bagStar.map Prod.fst = st.bagStar.map Prod.fst) marked
    (st, []) rfl
    (fun x cur _ hx =>
      foldl_preserves _
        (fun a => a.1.bagStar.map Prod.fst = st.bagStar.map Prod.fst) _ x hx
        (fun y tr _ hy => (relaxOne_keys k cur _ y tr).trans hy))

/-- The round loop does not change the global key set. -/
theorem runRounds_keys (tt : Timetable) (fuel : Nat) :
    ∀ (k : Nat) (st : RaptorState) (marked : List StopId),
      (runRounds tt k fuel st marked).bagStar.map Prod.fst =
        st.bagStar.map Prod.fst := by
  induction fuel with
  | zero => intro k st marked; simp [runRounds]
  | succ n ih =>
    intro k st marked
    simp only [runRounds]
    split
    · rfl
    · exact (ih (k + 1) _ _).trans
        ((add_transfer_time_keys tt k _ _).trans
          (traverse_routes_keys k st _))

/-- Initialization gives the global bag exactly the timetable's stops as
keys. -/
theorem initState_keys (tt : Timetable) (from_stops : List StopId)
    (to_station : Station) (dep rounds : Nat) :
    (initState tt from_stops to_station dep rounds).bagStar.map Prod.fst =
      tt.stops.map Place.stop := by
  unfold initState
  refine foldl_preserves _
    (fun (st : RaptorState) =>
      st.bagStar.map Prod.fst = tt.stops.map Place.stop)
    from_stops _ ?_ ?_
  · show (tt.stops.map fun s => (Place.stop s, Label.init)).map Prod.fst =
      tt.stops.map Place.stop
    rw [List.map_map]
    rfl
  · intro st fsx _ h
    have hpw : ({ st with
        bagRound := updRound st.bagRound 0 (Place.stop fsx)
          (fun l => l.update (some dep) none none)
        bagStar := st.bagStar.upd (Place.stop fsx)
          (fun l => l.update (some dep) none none) } : RaptorState) =
        pairedWrite st 0 (Place.stop fsx) dep none none := rfl
    rw [hpw, pairedWrite_bagStar, Bag.upd_keys]
    exact h

/-- The key set of the mapping a run returns is exactly the stops. -/
theorem run_keys (tt : Timetable) (from_stops : List StopId)
    (to_station : Station) (dep rounds : Nat) :
    (run tt from_stops to_station dep rounds).map Prod.fst =
      tt.stops.map Place.stop := by
  unfold run runState
  rw [runRounds_keys]
  exact initState_keys tt from_stops to_station dep rounds

/-- A query over no origin stops finds no departure candidates. -/
theorem range_empty (tt : Timetable) (mn mx : Nat) :
    get_trip_stop_times_in_range tt [] mn mx = [] := by
  unfold get_trip_stop_times_in_range
  induction tt.trip_stop_times with
  | nil => rfl
  | cons a t ih => simp

/-- Claim C2: on the 3-stop, 3-trip fixture, the point query from A to the
station of F departing at 100 with 2 rounds records best arrival 1500 at F
via Trip 202 boarded at C, C itself reached by Trip 101 from A, and the
reconstructed journey rides Trip 101 then Trip 202; with a single round F
keeps the sentinel infinity. -/
theorem raptor_c2 :
    (run fixtureTT ["A"] stationF 100 2).get (Place.stop "F") =
      ⟨1500, some (TripLike.trip t202), some "C"⟩ ∧
    (run fixtureTT ["A"] stationF 100 2).get (Place.stop "C") =
      ⟨600, some (TripLike.trip t101), some "A"⟩ ∧
    reconstruct_journey 5 (run fixtureTT ["A"] stationF 100 2) "F" =
      ⟨[⟨"A", "C", some (TripLike.trip t101), 600⟩,
        ⟨"C", "F", some (TripLike.trip t202), 1500⟩]⟩ ∧
    ((run fixtureTT ["A"] stationF 100 1).get
      (Place.stop "F")).earliest_arrival_time = LARGE_NUMBER := by
  refine ⟨by decide, by decide, by decide, by decide⟩

/-- Claim C1, counterexample: on the fixture query the round-1 label of the
origin stop A still holds the sentinel, which is larger than A's round-0
label (the departure time 100), so labels do regress between consecutive
round bags. -/
theorem raptor_c1_cx :
    ¬ ((((runState fixtureTT ["A"] stationF 100 2).bagRound 1).get
        (Place.stop "A")).earliest_arrival_time ≤
      (((runState fixtureTT ["A"] stationF 100 2).bagRound 0).get
        (Place.stop "A")).earliest_arrival_time) := by decide

/-- Claim C1, amended: provided the departure time is below the sentinel,
for every stop and every round k of at least 1, the round-k label either
still holds the untouched sentinel infinity (the stop was not improved in
round k) or does not exceed the round-(k-1) label. -/
theorem raptor_c1_amended (tt : Timetable) (from_stops : List StopId)
    (to_station : Station) (dep rounds : Nat) (hdep : dep ≤ LARGE_NUMBER)
    (p : Place) (k : Nat) (hk : 1 ≤ k) :
    (((runState tt from_stops to_station dep rounds).bagRound k).get
      p).earliest_arrival_time = LARGE_NUMBER ∨
    (((runState tt from_stops to_station dep rounds).bagRound k).get
      p).earliest_arrival_time ≤
      (((runState tt from_stops to_station dep rounds).bagRound
        (k - 1)).get p).earliest_arrival_time :=
  (runState_inv tt from_stops to_station dep rounds hdep).2.1 p k hk

/-- Witness for the amended claim C1 at the fixture query. -/
theorem raptor_c1_wit :
    (100 ≤ LARGE_NUMBER ∧ 1 ≤ (2 : Nat)) ∧
    ((((runState fixtureTT ["A"] stationF 100 2).bagRound 2).get
      (Place.stop "F")).earliest_arrival_time = LARGE_NUMBER ∨
    (((runState fixtureTT ["A"] stationF 100 2).bagRound 2).get
      (Place.stop "F")).earliest_arrival_time ≤
      (((runState fixtureTT ["A"] stationF 100 2).bagRound (2 - 1)).get
        (Place.stop "F")).earliest_arrival_time) :=
  ⟨⟨by decide, by decide⟩,
    raptor_c1_amended fixtureTT ["A"] stationF 100 2 (by decide)
      (Place.stop "F") 2 (by decide)⟩

/-- Claim C8: after initialization, no operation of any round increases a
stop's global best arrival time: both phases only decrease the global
table, and the final table of a run is pointwise at most the initialized
one. -/
theorem raptor_c8 :
    (∀ (k : Nat) (st : RaptorState) (q : List (Route × StopId)),
      BagStarGe st (traverse_routes k st q).1) ∧
    (∀ (tt : Timetable) (k : Nat) (st : RaptorState)
      (marked : List StopId), BagStarGe st (add_transfer_time tt k st marked).1) ∧
    (∀ (tt : Timetable) (from_stops : List StopId) (to_station : Station)
      (dep rounds : Nat),
      BagStarGe (initState tt from_stops to_station dep rounds)
        (runState tt from_stops to_station dep rounds)) :=
  ⟨fun k st q => traverse_routes_starGe k st q,
   fun tt k st marked => add_transfer_time_starGe tt k st marked,
   fun tt fs ts dep rounds => runRounds_starGe tt rounds 1
     (initState tt fs ts dep rounds) fs⟩

/-- Claim C4, counterexample: the mapping returned by `run` on the fixture
holds no key for the Station named A even though that station is in the
timetable, so the returned key set does not contain every Station. -/
theorem raptor_c4_cx :
    bagLookup (run fixtureTT ["A"] stationF 100 2) (Place.station "A") =
      none ∧
    "A" ∈ fixtureTT.stations.map Station.name := by decide

/-- Claim C4, amended: `run` returns exactly the global best-label table,
whose key set is every Stop of the timetable (Stations are keys of the
per-round bags only, not of the returned table). -/
theorem raptor_c4_amended (tt : Timetable) (from_stops : List StopId)
    (to_station : Station) (dep rounds : Nat) :
    run tt from_stops to_station dep rounds =
      (runState tt from_stops to_station dep rounds).bagStar ∧
    (run tt from_stops to_station dep rounds).map Prod.fst =
      tt.stops.map Place.stop :=
  ⟨rfl, run_keys tt from_stops to_station dep rounds⟩

/-- Claim C7: with an empty origin set a point query stops before any route
scanning (the state stays the initialized one), every label of the
returned table is the untouched initial label, the destination selector
returns the zero sentinel, and a range query returns no journeys. -/
theorem raptor_c7 (tt : Timetable) (to_station : Station)
    (dep rounds : Nat) :
    runState tt [] to_station dep rounds =
      initState tt [] to_station dep rounds ∧
    (∀ p, (run tt [] to_station dep rounds).get p = Label.init) ∧
    (∀ to_stops : List StopId,
      best_stop_at_target_station to_stops
        (run tt [] to_station dep rounds) = none) ∧
    (∀ (to_stops : List StopId) (mn mx : Nat),
      run_range_raptor tt [] to_stops to_station mn mx rounds = []) := by
  have h1 : runState tt [] to_station dep rounds =
      initState tt [] to_station dep rounds := by
    cases rounds with
    | zero => rfl
    | succ n => rfl
  have h2 : ∀ p, (run tt [] to_station dep rounds).get p = Label.init := by
    intro p
    show ((runState tt [] to_station dep rounds).bagStar.get p) = Label.init
    rw [h1]
    exact Bag.get_map_init tt.stops Place.stop p
  refine ⟨h1, h2, ?_, ?_⟩
  · intro to_stops
    unfold best_stop_at_target_station
    have hfold := foldl_preserves
      (fun (acc : Option StopId × Nat) stop =>
        if ((run tt [] to_station dep rounds).get
            (Place.stop stop)).earliest_arrival_time < acc.2 then
          (some stop, ((run tt [] to_station dep rounds).get
            (Place.stop stop)).earliest_arrival_time)
        else acc)
      (fun acc => acc = ((none : Option StopId), LARGE_NUMBER)) to_stops
      ((none : Option StopId), LARGE_NUMBER) rfl ?_
    · rw [hfold]
    · intro x stop _ hx
      subst hx
      simp [h2 (Place.stop stop), Label.init]
  · intro to_stops mn mx
    unfold run_range_raptor candidateJourneys
    rw [range_empty]
    rfl

/-- Claim C5: reconstruction returns the empty journey when the destination
label has no from-stop; in general it returns exactly the legs of the
backward from-stop walk in reversed (chronological) order, and every leg
of that walk carries the visited label's from-stop, to-stop, trip and
arrival time. -/
theorem raptor_c5 :
    (∀ (fuel : Nat) (bag : Bag) (d : StopId),
      (bag.get (Place.stop d)).from_stop = none →
      reconstruct_journey fuel bag d = ⟨[]⟩) ∧
    (∀ (fuel : Nat) (bag : Bag) (d : StopId),
      (reconstruct_journey fuel bag d).legs =
        (backwardWalk fuel bag d).reverse) ∧
    (∀ (fuel : Nat) (bag : Bag) (d : StopId),
      ∀ l ∈ backwardWalk fuel bag d,
        (bag.get (Place.stop l.to_stop)).from_stop = some l.from_stop ∧
        l.trip = (bag.get (Place.stop l.to_stop)).trip ∧
        l.earliest_arrival_time =
          (bag.get (Place.stop l.to_stop)).earliest_arrival_time) := by
  refine ⟨?_, ?_, ?_⟩
  · intro fuel bag d h
    cases fuel with
    | zero => rfl
    | succ n => simp [reconstruct_journey, h]
  · intro fuel bag d
    induction fuel generalizing d with
    | zero => rfl
    | succ n ih =>
      cases hfs : (bag.get (Place.stop d)).from_stop with
      | none => simp [reconstruct_journey, backwardWalk, hfs]
      | some fs => simp [reconstruct_journey, backwardWalk, hfs, ih fs]
  · intro fuel bag d
    induction fuel generalizing d with
    | zero => intro l hl; exact absurd hl (by simp [backwardWalk])
    | succ n ih =>
      intro l hl
      cases hfs : (bag.get (Place.stop d)).from_stop with
      | none =>
        rw [backwardWalk, hfs] at hl
        exact absurd hl (by simp)
      | some fs =>
        rw [backwardWalk, hfs] at hl
        rcases List.mem_cons.mp hl with hhead | htail
        · subst hhead
          exact ⟨hfs, rfl, rfl⟩
        · exact ih fs l htail

/-- Witness for claim C5 on a concrete two-entry label table. -/
theorem raptor_c5_wit :
    (Bag.get cbBag (Place.stop "A")).from_stop = none ∧
    reconstruct_journey 3 cbBag "A" = ⟨[]⟩ :=
  ⟨by decide, raptor_c5.1 3 cbBag "A" (by decide)⟩

/-- Claim C6: the transfer-relaxation phase folds `relaxOne` over every
marked stop's outgoing transfers with the candidate base read from that
stop's round-k label; one relaxation with layover cost `c` computes the
candidate arrival `ts + c` and performs the paired round-k/global update to
(candidate, transfer marker, current stop) and marks the target, exactly
when the candidate is strictly below the target's current global best
arrival, and otherwise changes nothing. -/
theorem raptor_c6 (tt : Timetable) (st : RaptorState) (ns : List StopId)
    (k : Nat) (cur : StopId) (tr : Transfer) (c ts : Nat)
    (hc : tr.layovertime = some c)
    (hstar : (bagLookup st.bagStar (Place.stop tr.to_stop)).isSome = true)
    (hround : (bagLookup (st.bagRound k) (Place.stop tr.to_stop)).isSome
      = true) :
    (add_transfer_time tt k st ns =
      ns.foldl (fun acc cur2 =>
        (tt.transfers cur2).foldl
          (relaxOne k cur2
            (((acc.1.bagRound k).get
              (Place.stop cur2)).earliest_arrival_time)) acc) (st, [])) ∧
    (ts + c <
        (st.bagStar.get (Place.stop tr.to_stop)).earliest_arrival_time →
      relaxOne k cur ts (st, ns) tr =
        (pairedWrite st k (Place.stop tr.to_stop) (ts + c)
          (some TripLike.transferTrip) (some cur), ns ++ [tr.to_stop]) ∧
      (pairedWrite st k (Place.stop tr.to_stop) (ts + c)
        (some TripLike.transferTrip) (some cur)).bagStar.get
          (Place.stop tr.to_stop) =
        ⟨ts + c, some TripLike.transferTrip, some cur⟩ ∧
      ((pairedWrite st k (Place.stop tr.to_stop) (ts + c)
        (some TripLike.transferTrip) (some cur)).bagRound k).get
          (Place.stop tr.to_stop) =
        ⟨ts + c, some TripLike.transferTrip, some cur⟩) ∧
    (¬ ts + c <
        (st.bagStar.get (Place.stop tr.to_stop)).earliest_arrival_time →
      relaxOne k cur ts (st, ns) tr = (st, ns)) := by
  refine ⟨rfl, ?_, ?_⟩
  · intro hlt
    refine ⟨?_, ?_, ?_⟩
    · simp only [relaxOne, hc]
      rw [if_pos hlt]
    · rw [pairedWrite_bagStar]
      cases hl : bagLookup st.bagStar (Place.stop tr.to_stop) with
      | none => rw [hl] at hstar; simp at hstar
      | some l =>
        rw [Bag.get_upd_some _ _ _ _ hl]
        rfl
    · rw [pairedWrite_bagRound, if_pos rfl]
      cases hl : bagLookup (st.bagRound k) (Place.stop tr.to_stop) with
      | none => rw [hl] at hround; simp at hround
      | some l =>
        rw [Bag.get_upd_some _ _ _ _ hl]
        rfl
  · intro hge
    simp only [relaxOne, hc]
    rw [if_neg hge]

/-- Witness for claim C6: a concrete relaxation on the two-stop timetable
whose candidate does not beat the sentinel, leaving the state unchanged. -/
theorem raptor_c6_wit :
    ((⟨"A", "B", some 5⟩ : Transfer).layovertime = some 5 ∧
     (bagLookup (initBase ztTT stationBz 0).bagStar
       (Place.stop "B")).isSome = true ∧
     (bagLookup ((initBase ztTT stationBz 0).bagRound 0)
       (Place.stop "B")).isSome = true) ∧
    ((add_transfer_time ztTT 0 (initBase ztTT stationBz 0) ["A"] =
      (["A"] : List StopId).foldl (fun acc cur2 =>
        (ztTT.transfers cur2).foldl
          (relaxOne 0 cur2
            (((acc.1.bagRound 0).get
              (Place.stop cur2)).earliest_arrival_time)) acc)
        (initBase ztTT stationBz 0, [])) ∧
    (LARGE_NUMBER + 5 <
        ((initBase ztTT stationBz 0).bagStar.get
          (Place.stop "B")).earliest_arrival_time →
      relaxOne 0 "A" LARGE_NUMBER (initBase ztTT stationBz 0, ["A"])
          ⟨"A", "B", some 5⟩ =
        (pairedWrite (initBase ztTT stationBz 0) 0 (Place.stop "B")
          (LARGE_NUMBER + 5) (some TripLike.transferTrip) (some "A"),
          ["A"] ++ ["B"]) ∧
      (pairedWrite (initBase ztTT stationBz 0) 0 (Place.stop "B")
        (LARGE_NUMBER + 5) (some TripLike.transferTrip)
          (some "A")).bagStar.get (Place.stop "B") =
        ⟨LARGE_NUMBER + 5, some TripLike.transferTrip, some "A"⟩ ∧
      ((pairedWrite (initBase ztTT stationBz 0) 0 (Place.stop "B")
        (LARGE_NUMBER + 5) (some TripLike.transferTrip)
          (some "A")).bagRound 0).get (Place.stop "B") =
        ⟨LARGE_NUMBER + 5, some TripLike.transferTrip, some "A"⟩) ∧
    (¬ LARGE_NUMBER + 5 <
        ((initBase ztTT stationBz 0).bagStar.get
          (Place.stop "B")).earliest_arrival_time →
      relaxOne 0 "A" LARGE_NUMBER (initBase ztTT stationBz 0, ["A"])
          ⟨"A", "B", some 5⟩ = (initBase ztTT stationBz 0, ["A"]))) :=
  ⟨⟨by decide, by decide, by decide⟩,
    raptor_c6 ztTT (initBase ztTT stationBz 0) ["A"] 0 "A"
      ⟨"A", "B", some 5⟩ 5 LARGE_NUMBER (by decide) (by decide) (by decide)⟩

/-- The code's domination test accepts exactly equality or the
specification's strict Pareto domination. -/
theorem is_dominated_iff (o n : Journey) :
    is_dominated (some o) n = true ↔ (o = n ∨ specDominated n o) := by
  unfold is_dominated specDominated
  by_cases he : o = n
  · simp [he]
  · simp only [if_neg he, decide_eq_true_eq]
    constructor
    · intro h
      refine Or.inr ?_
      omega
    · intro h
      rcases h with he2 | hsp
      · exact absurd he2 he
      · omega

/-- The acceptance fold appends a subsequence of the candidates. -/
theorem acceptAux_sublist :
    ∀ (cands acc : List Journey), ∃ s,
      List.foldl acceptStep acc cands = acc ++ s ∧ s.Sublist cands := by
  intro cands
  induction cands with
  | nil => intro acc; exact ⟨[], by simp, List.Sublist.refl []⟩
  | cons j t ih =>
    intro acc
    by_cases hcond :
      (decide (acc.length = 0) || !(is_dominated acc.getLast? j)) = true
    · have hstep : acceptStep acc j = acc ++ [j] := by
        unfold acceptStep
        rw [if_pos hcond]
      rcases ih (acc ++ [j]) with ⟨s, hs, hsub⟩
      refine ⟨j :: s, ?_, List.Sublist.cons₂ j hsub⟩
      rw [List.foldl_cons, hstep, hs, List.append_assoc]
      rfl
    · have hstep : acceptStep acc j = acc := by
        unfold acceptStep
        rw [if_neg hcond]
      rcases ih acc with ⟨s, hs, hsub⟩
      refine ⟨s, ?_, hsub.cons j⟩
      rw [List.foldl_cons, hstep]
      exact hs

/-- An element produced by `getLast?` belongs to the list. -/
theorem mem_of_getLast_q {α : Type} {l : List α} {x : α}
    (h : l.getLast? = some x) : x ∈ l := by
  rcases List.mem_getLast?_eq_getLast (l := l) (x := x) h with ⟨hne, hx⟩
  subst hx
  exact List.getLast_mem hne

/-- In a pairwise-related list, every element is the last one or relates to
it. -/
theorem pairwise_getLast {R : Journey → Journey → Prop} :
    ∀ (l : List Journey) (x : Journey), l.getLast? = some x →
      List.Pairwise R l → ∀ a ∈ l, a = x ∨ R a x := by
  intro l
  induction l with
  | nil => intro x hx; simp at hx
  | cons b t ih =>
    intro x hx hp a ha
    cases t with
    | nil =>
      simp at hx ha
      subst hx
      subst ha
      exact Or.inl rfl
    | cons c t2 =>
      have hx2 : (c :: t2).getLast? = some x := by
        simpa [List.getLast?_cons_cons] using hx
      rcases List.mem_cons.mp ha with rfl | hat
      · refine Or.inr ?_
        exact (List.pairwise_cons.mp hp).1 x (mem_of_getLast_q hx2)
      · exact ih x hx2 (List.pairwise_cons.mp hp).2 a hat

/-- Accepted journeys are strictly decreasing in arrival time when the
pending candidates depart strictly later than everything accepted. -/
theorem accept_pairwise_arr :
    ∀ (cands acc : List Journey),
      List.Pairwise depDec (acc ++ cands) → List.Pairwise arrDec acc →
      List.Pairwise arrDec (List.foldl acceptStep acc cands) := by
  intro cands
  induction cands with
  | nil =>
    intro acc h1 h2
    simpa using h2
  | cons j t ih =>
    intro acc h1 h2
    rw [List.foldl_cons]
    by_cases hcond :
      (decide (acc.length = 0) || !(is_dominated acc.getLast? j)) = true
    · have hstep : acceptStep acc j = acc ++ [j] := by
        unfold acceptStep
        rw [if_pos hcond]
      rw [hstep]
      apply ih
      · rw [List.append_assoc]
        exact h1
      · rw [List.pairwise_append]
        refine ⟨h2, List.pairwise_singleton _ _, ?_⟩
        intro a ha b hb
        rw [List.mem_singleton] at hb
        rw [hb]
        by_cases hemp : acc = []
        · subst hemp
          simp at ha
        · obtain ⟨x, hx⟩ := Option.isSome_iff_exists.mp
            (List.getLast?_isSome.mpr hemp)
          have hdomf : is_dominated acc.getLast? j = false := by
            rcases (Bool.or_eq_true _ _).mp hcond with h0 | hnd
            · exact absurd (List.length_eq_zero.mp
                (by simpa using h0)) hemp
            · simpa using hnd
          rw [hx] at hdomf
          have hnot : ¬ (x = j ∨ specDominated j x) := by
            rw [← is_dominated_iff]
            simp [hdomf]
          have hdep : j.dep < x.dep := by
            have := (List.pairwise_append.mp h1).2.2 x
              (mem_of_getLast_q hx) j (by simp)
            exact this
          have harr : j.arr < x.arr := by
            by_contra hge
            push_neg at hge
            refine hnot (Or.inr ?_)
            unfold specDominated
            omega
          show arrDec a j
          unfold arrDec
          rcases pairwise_getLast acc x hx h2 a ha with rfl | hax
          · exact harr
          · exact lt_trans harr hax
    · have hstep : acceptStep acc j = acc := by
        unfold acceptStep
        rw [if_neg hcond]
      rw [hstep]
      apply ih
      · exact h1.sublist
          (List.Sublist.append_left (List.sublist_cons_self j t) acc)
      · exact h2

/-- Claim C3, counterexample: a candidate equal to the last accepted
journey is pruned although it is not dominated under the specification's
strict definition, and on a two-candidate query with strictly decreasing
departures both journeys are accepted with the second arriving strictly
earlier, so the accepted list is not strictly increasing in arrival time in
append order. -/
theorem raptor_c3_cx :
    acceptJourneys [jrny 200 300, jrny 200 300] = [jrny 200 300] ∧
    ¬ specDominated (jrny 200 300) (jrny 200 300) ∧
    acceptJourneys [jrny 200 300, jrny 100 250] =
      [jrny 200 300, jrny 100 250] ∧
    (jrny 100 250).dep < (jrny 200 300).dep ∧
    ¬ ((jrny 200 300).arr < (jrny 100 250).arr) := by decide

/-- Claim C3, amended: a candidate journey is appended exactly when it is
neither equal to nor spec-dominated by the most recently accepted journey;
consequently, when the candidates depart in strictly decreasing order, the
accepted list read in append order is strictly decreasing in departure
time and strictly decreasing (not increasing) in arrival time. -/
theorem raptor_c3_amended :
    (∀ o n : Journey,
      is_dominated (some o) n = true ↔ (o = n ∨ specDominated n o)) ∧
    (∀ cands : List Journey, List.Pairwise depDec cands →
      List.Pairwise depDec (acceptJourneys cands) ∧
      List.Pairwise arrDec (acceptJourneys cands)) := by
  refine ⟨is_dominated_iff, ?_⟩
  intro cands hp
  constructor
  · rcases acceptAux_sublist cands [] with ⟨s, hs, hsub⟩
    unfold acceptJourneys
    rw [hs]
    simpa using hp.sublist hsub
  · exact accept_pairwise_arr cands [] (by simpa using hp)
      List.Pairwise.nil

/-- Witness for the amended claim C3 on two concrete candidates. -/
theorem raptor_c3_wit :
    List.Pairwise depDec [jrny 200 300, jrny 100 250] ∧
    (List.Pairwise depDec
      (acceptJourneys [jrny 200 300, jrny 100 250]) ∧
     List.Pairwise arrDec
      (acceptJourneys [jrny 200 300, jrny 100 250])) :=
  ⟨by decide,
    raptor_c3_amended.2 [jrny 200 300, jrny 100 250] (by decide)⟩

/-- Claim C10: the domination test returns true whenever the new journey
equals the previously accepted one, and consequently the acceptance loop
never places two equal journeys adjacently in the result list. -/
theorem raptor_c10 :
    (∀ o n : Journey, o = n → is_dominated (some o) n = true) ∧
    (∀ cands : List Journey,
      List.Chain' (fun a b => a ≠ b) (acceptJourneys cands)) := by
  constructor
  · intro o n h
    subst h
    simp [is_dominated]
  · intro cands
    unfold acceptJourneys
    refine foldl_preserves acceptStep
      (fun acc => List.Chain' (fun a b => a ≠ b) acc) cands []
      List.chain'_nil ?_
    intro acc j _ hacc
    unfold acceptStep
    split
    · rename_i hcond
      rw [List.chain'_append]
      refine ⟨hacc, List.chain'_singleton _, ?_⟩
      intro x hx y hy
      simp only [List.head?_cons, Option.mem_def, Option.some.injEq] at hy
      subst hy
      rw [Option.mem_def] at hx
      intro heq
      rcases (Bool.or_eq_true _ _).mp hcond with h0 | hnd
      · have hnil : acc = [] := List.length_eq_zero.mp (by simpa using h0)
        subst hnil
        simp at hx
      · have hdomf : is_dominated acc.getLast? j = false := by
          simpa using hnd
        rw [hx, heq] at hdomf
        simp [is_dominated] at hdomf
    · exact hacc

/-- Witness for claim C10 on a concrete journey. -/
theorem raptor_c10_wit :
    jrny 200 300 = jrny 200 300 ∧
    is_dominated (some (jrny 200 300)) (jrny 200 300) = true :=
  ⟨rfl, raptor_c10.1 (jrny 200 300) (jrny 200 300) rfl⟩

/-- Unpacking a successful earliest-trip search: the found trip belongs to
the route, visits the stop with the found stop time, and departs no earlier
than the requested time. -/
theorem earliest_some (r : Route) (time : Nat) (s : StopId) (t : Trip)
    (tst : TripStopTime)
    (h : r.earliest_trip_stop_time time s = some (t, tst)) :
    t ∈ r.trips ∧ t.get_stop_q s = some tst ∧ time ≤ tst.dts_dep := by
  unfold Route.earliest_trip_stop_time at h
  rcases List.findSome?_eq_some_iff.mp h with ⟨l1, a, l2, heq, hfa, _⟩
  have hmem : a ∈ r.trips := by
    rw [heq]
    exact List.mem_append.mpr (Or.inr (List.mem_cons_self a l2))
  cases hga : a.get_stop_q s with
  | none => simp [hga] at hfa
  | some tst2 =>
    simp only [hga] at hfa
    by_cases hle : time ≤ tst2.dts_dep
    · rw [if_pos hle] at hfa
      have hpair := Option.some.inj hfa
      rw [Prod.mk.injEq] at hpair
      obtain ⟨h1, h2⟩ := hpair
      subst h1
      subst h2
      exact ⟨hmem, hga, hle⟩
    · rw [if_neg hle] at hfa
      exact absurd hfa (by simp)

/-- A found stop time is what `get_stop` returns. -/
theorem get_stop_of_q (t : Trip) (s : StopId) (tst : TripStopTime)
    (h : t.get_stop_q s = some tst) : t.get_stop s = tst := by
  unfold Trip.get_stop
  rw [h]
  rfl

/-- Dropping the scanned head weakens the scan invariant. -/
theorem scanOK_weaken (route : Route) (p : StopId) (rest : List StopId)
    (acc : ScanAcc) (h : ScanOK route (p :: rest) acc) :
    ScanOK route rest acc := by
  cases hct : acc.ct with
  | none => simp [ScanOK, hct]
  | some t =>
    simp only [ScanOK, hct] at h ⊢
    obtain ⟨h1, b, h2, h3, h4⟩ := h
    exact ⟨h1, b, h2, h3, fun q hq => h4 q (List.mem_cons_of_mem p hq)⟩

/-- `improveStep` keeps the scan invariant: it does not touch the held trip
or boarding stop and only lowers global arrivals. -/
theorem improveStep_scanOK (k : Nat) (route : Route) (acc : ScanAcc)
    (p : StopId) (rem : List StopId) (hok : ScanOK route rem acc) :
    ScanOK route rem (improveStep k acc p) := by
  have hct := improveStep_ct k acc p
  have hbs := improveStep_bs k acc p
  have hge := improveStep_starGe k acc p
  cases hacct : acc.ct with
  | none => simp [ScanOK, hct, hacct]
  | some t =>
    simp only [ScanOK, hacct] at hok
    simp only [ScanOK, hct, hacct, hbs]
    obtain ⟨h1, b, h2, h3, h4⟩ := hok
    exact ⟨h1, b, h2, le_trans (hge (Place.stop b)) h3, h4⟩

/-- `improveStep` preserves chain strictness given the scan invariant: any
write records the boarding stop, whose global best arrival is strictly
below the written arrival. -/
theorem improveStep_chain (k : Nat) (route : Route) (acc : ScanAcc)
    (p : StopId) (rest : List StopId)
    (hch : ChainStrict acc.st) (hok : ScanOK route (p :: rest) acc) :
    ChainStrict (improveStep k acc p).st := by
  cases hct : acc.ct with
  | none => simpa [improveStep, hct] using hch
  | some t =>
    simp only [ScanOK, hct] at hok
    obtain ⟨htmem, b, hbs, hble, hall⟩ := hok
    simp only [improveStep, hct]
    split
    · rename_i hcond
      rw [hbs]
      have harr : (acc.st.bagStar.get
          (Place.stop b)).earliest_arrival_time < (t.get_stop p).dts_arr :=
        lt_of_le_of_lt hble (hall p (List.mem_cons_self p rest))
      split
      · exact ChainStrict_eaad _ _
          (pairedWrite_chain acc.st k p ((t.get_stop p).dts_arr)
            (some (TripLike.trip t)) b hcond.1 harr hch)
      · exact pairedWrite_chain acc.st k p ((t.get_stop p).dts_arr)
          (some (TripLike.trip t)) b hcond.1 harr hch
    · exact hch

/-- `boardStep` re-establishes the scan invariant for the remaining stops:
a newly boarded trip departs here no earlier than the previous round's
arrival (hence no earlier than the global best), and by route strictness
it departs strictly before its arrival at every remaining stop. -/
theorem boardStep_scanOK (k : Nat) (route : Route) (acc : ScanAcc)
    (p : StopId) (rest : List StopId)
    (hinv : InvRound k acc.st)
    (hok : ScanOK route (p :: rest) acc)
    (hpw : ∀ t ∈ route.trips,
      List.Pairwise
        (fun a b => (t.get_stop a).dts_dep < (t.get_stop b).dts_arr)
        (p :: rest)) :
    ScanOK route rest (boardStep k route acc p) := by
  simp only [boardStep]
  split
  · cases hetst : route.earliest_trip_stop_time
        (((acc.st.bagRound (k - 1)).get
          (Place.stop p)).earliest_arrival_time) p with
    | none => exact scanOK_weaken route p rest acc hok
    | some pr =>
      obtain ⟨tN, tstN⟩ := pr
      obtain ⟨htNmem, htNq, htNle⟩ := earliest_some route _ p tN tstN hetst
      have hgs : tN.get_stop p = tstN := get_stop_of_q tN p tstN htNq
      show ScanOK route rest
        (if some tN ≠ acc.ct then { acc with ct := some tN, bs := some p }
         else acc)
      split
      · show ScanOK route rest
          { acc with ct := some tN, bs := some p }
        simp only [ScanOK]
        refine ⟨htNmem, p, rfl, ?_, ?_⟩
        · rw [hgs]
          exact le_trans (hinv.1 (Place.stop p) (k - 1)) htNle
        · intro q hq
          exact (List.pairwise_cons.mp (hpw tN htNmem)).1 q hq
      · exact scanOK_weaken route p rest acc hok
  · exact scanOK_weaken route p rest acc hok

/-- The scan of one route's remaining stops preserves the round invariant
and chain strictness. -/
theorem scan_chain (k : Nat) (route : Route) (hk : 1 ≤ k) :
    ∀ (rem : List StopId) (acc : ScanAcc),
      InvRound k acc.st → ChainStrict acc.st → ScanOK route rem acc →
      (∀ t ∈ route.trips,
        List.Pairwise
          (fun a b => (t.get_stop a).dts_dep < (t.get_stop b).dts_arr)
          rem) →
      InvRound k (List.foldl (traverseStop k route) acc rem).st ∧
      ChainStrict (List.foldl (traverseStop k route) acc rem).st := by
  intro rem
  induction rem with
  | nil => intro acc h1 h2 _ _; exact ⟨h1, h2⟩
  | cons p rest ih =>
    intro acc h1 h2 hok hpw
    rw [List.foldl_cons]
    have hinv1 : InvRound k (improveStep k acc p).st :=
      improveStep_inv k acc p hk h1
    have hch1 : ChainStrict (improveStep k acc p).st :=
      improveStep_chain k route acc p rest h2 hok
    have hok1 : ScanOK route (p :: rest) (improveStep k acc p) :=
      improveStep_scanOK k route acc p (p :: rest) hok
    have hts : traverseStop k route acc p =
        boardStep k route (improveStep k acc p) p := rfl
    rw [hts]
    apply ih
    · rw [boardStep_st]; exact hinv1
    · rw [boardStep_st]; exact hch1
    · exact boardStep_scanOK k route (improveStep k acc p) p rest hinv1
        hok1 hpw
    · intro t ht
      exact (List.pairwise_cons.mp (hpw t ht)).2

/-- Scanning one strict route preserves the invariant and chain
strictness. -/
theorem traverseRoute_chain (k : Nat) (acc : RaptorState × List StopId)
    (rp : Route × StopId) (hk : 1 ≤ k) (hr : RouteStrict rp.1)
    (hinv : InvRound k acc.1) (hch : ChainStrict acc.1) :
    InvRound k (traverseRoute k acc rp).1 ∧
    ChainStrict (traverseRoute k acc rp).1 := by
  unfold traverseRoute
  exact scan_chain k rp.1 hk (rp.1.stops.drop (rp.1.stop_index rp.2))
    ⟨acc.1, acc.2, none, none⟩ hinv hch (by simp [ScanOK])
    (fun t ht => ((hr t ht).sublist (List.drop_sublist _ _)))

/-- The route-traversal phase over routes of a strict timetable preserves
the invariant and chain strictness. -/
theorem traverse_routes_chain (k : Nat) (st : RaptorState)
    (q : List (Route × StopId)) (hk : 1 ≤ k)
    (hq : ∀ rp ∈ q, RouteStrict rp.1)
    (hinv : InvRound k st) (hch : ChainStrict st) :
    InvRound k (traverse_routes k st q).1 ∧
    ChainStrict (traverse_routes k st q).1 := by
  unfold traverse_routes
  exact foldl_preserves (traverseRoute k)
    (fun (a : RaptorState × List StopId) =>
      InvRound k a.1 ∧ ChainStrict a.1) q (st, []) ⟨hinv, hch⟩
    (fun x rp hrp hx =>
      traverseRoute_chain k x rp hk (hq rp hrp) hx.1 hx.2)

/-- Every route paired by `accumulate_routes` is a route of the
timetable. -/
theorem accumulate_routes_mem (tt : Timetable) (marked : List StopId) :
    ∀ rp ∈ accumulate_routes tt marked, rp.1 ∈ tt.routes := by
  unfold accumulate_routes
  refine foldl_preserves _
    (fun (q : List (Route × StopId)) => ∀ rp ∈ q, rp.1 ∈ tt.routes)
    marked [] (by simp) ?_
  intro q ms _ hq
  refine foldl_preserves _
    (fun (q2 : List (Route × StopId)) => ∀ rp ∈ q2, rp.1 ∈ tt.routes)
    _ q hq ?_
  intro q2 route hroute hq2
  have hrmem : route ∈ tt.routes := by
    unfold Timetable.get_routes_of_stop at hroute
    exact (List.mem_filter.mp hroute).1
  cases hfind : (q2.find? (fun rp => rp.1 = route)).map
      (fun rp => rp.2) with
  | none =>
    simp only [hfind]
    intro rp hrp
    rcases List.mem_append.mp hrp with h | h
    · exact hq2 rp h
    · rw [List.mem_singleton] at h
      subst h
      exact hrmem
  | some cur =>
    simp only [hfind]
    split
    · intro rp hrp
      rcases List.mem_map.mp hrp with ⟨rp2, hrp2, hg⟩
      by_cases hcase : rp2.1 = route
      · rw [if_pos hcase] at hg
        subst hg
        exact hrmem
      · rw [if_neg hcase] at hg
        subst hg
        exact hq2 rp2 hrp2
    · exact hq2

/-- One transfer relaxation preserves chain strictness and the bound on
the source stop's best arrival, for positive layover costs. -/
theorem relaxOne_chain (k : Nat) (cur : StopId) (ts : Nat)
    (acc : RaptorState × List StopId) (tr : Transfer)
    (hpos : ∀ c, tr.layovertime = some c → 0 < c)
    (hch : ChainStrict acc.1)
    (hcur : (acc.1.bagStar.get (Place.stop cur)).earliest_arrival_time ≤ ts) :
    ChainStrict (relaxOne k cur ts acc tr).1 ∧
    ((relaxOne k cur ts acc tr).1.bagStar.get
      (Place.stop cur)).earliest_arrival_time ≤ ts := by
  cases hc : tr.layovertime with
  | none => exact ⟨by simpa [relaxOne, hc] using hch,
      by simpa [relaxOne, hc] using hcur⟩
  | some c =>
    simp only [relaxOne, hc]
    split
    · rename_i hlt
      have hcpos : 0 < c := hpos c hc
      constructor
      · exact pairedWrite_chain acc.1 k tr.to_stop (ts + c)
          (some TripLike.transferTrip) cur hlt (by omega) hch
      · exact le_trans
          (pairedWrite_starGe acc.1 k (Place.stop tr.to_stop) (ts + c)
            (some TripLike.transferTrip) (some cur) (le_of_lt hlt)
            (Place.stop cur)) hcur
    · exact ⟨hch, hcur⟩

/-- The transfer-relaxation phase preserves the invariant and chain
strictness when all layover costs are positive. -/
theorem add_transfer_time_chain (tt : Timetable) (k : Nat)
    (st : RaptorState) (marked : List StopId) (hk : 1 ≤ k)
    (HT : TransfersPos tt) (hinv : InvRound k st) (hch : ChainStrict st) :
    InvRound k (add_transfer_time tt k st marked).1 ∧
    ChainStrict (add_transfer_time tt k st marked).1 := by
  unfold add_transfer_time
  refine foldl_preserves _
    (fun (a : RaptorState × List StopId) =>
      InvRound k a.1 ∧ ChainStrict a.1) marked (st, [])
    ⟨hinv, hch⟩ ?_
  intro x cur _ hx
  have hts : (x.1.bagStar.get (Place.stop cur)).earliest_arrival_time ≤
      ((x.1.bagRound k).get (Place.stop cur)).earliest_arrival_time :=
    hx.1.1 (Place.stop cur) k
  have hfold := foldl_preserves
    (relaxOne k cur
      (((x.1.bagRound k).get (Place.stop cur)).earliest_arrival_time))
    (fun (a : RaptorState × List StopId) =>
      (InvRound k a.1 ∧ ChainStrict a.1) ∧
      (a.1.bagStar.get (Place.stop cur)).earliest_arrival_time ≤
        ((x.1.bagRound k).get (Place.stop cur)).earliest_arrival_time)
    (tt.transfers cur) x ⟨hx, hts⟩ ?_
  · exact hfold.1
  · intro y tr htr hy
    refine ⟨⟨relaxOne_inv k cur _ y tr hk hy.1.1, ?_⟩, ?_⟩
    · exact (relaxOne_chain k cur _ y tr
        (fun c hc => HT cur tr htr c hc) hy.1.2 hy.2).1
    · exact (relaxOne_chain k cur _ y tr
        (fun c hc => HT cur tr htr c hc) hy.1.2 hy.2).2

/-- The round loop preserves the invariant and chain strictness for strict
timetables with positive layovers. -/
theorem runRounds_chain (tt : Timetable) (HS : TTStrict tt)
    (HT : TransfersPos tt) (fuel : Nat) :
    ∀ (k : Nat) (st : RaptorState) (marked : List StopId), 1 ≤ k →
      InvRound k st → ChainStrict st →
      ChainStrict (runRounds tt k fuel st marked) := by
  induction fuel with
  | zero =>
    intro k st marked hk h1 h2
    simpa [runRounds] using h2
  | succ n ih =>
    intro k st marked hk h1 h2
    simp only [runRounds]
    split
    · exact h2
    · have hq := accumulate_routes_mem tt marked
      have h3 := traverse_routes_chain k st (accumulate_routes tt marked)
        hk (fun rp hrp => HS rp.1 (hq rp hrp)) h1 h2
      have h4 := add_transfer_time_chain tt k
        (traverse_routes k st (accumulate_routes tt marked)).1
        (traverse_routes k st (accumulate_routes tt marked)).2 hk HT
        h3.1 h3.2
      exact ih (k + 1) _ _ (by omega) (InvRound_mono (by omega) h4.1) h4.2

/-- A full run of a strict timetable with positive layovers yields a
best-label table with strictly decreasing from-stop chains. -/
theorem runState_chain (tt : Timetable) (from_stops : List StopId)
    (to_station : Station) (dep rounds : Nat)
    (hdep : dep ≤ LARGE_NUMBER) (HS : TTStrict tt) (HT : TransfersPos tt) :
    ChainStrict (runState tt from_stops to_station dep rounds) := by
  unfold runState
  have hprops := initState_props tt from_stops to_station dep rounds hdep
  exact runRounds_chain tt HS HT rounds 1
    (initState tt from_stops to_station dep rounds) from_stops
    (le_refl 1) (InvRound_mono (by omega) hprops.1)
    (chainStrict_of_fromNone _ hprops.2)

/-- Strictly decreasing chains make the backward walk terminate within any
fuel exceeding the starting arrival time. -/
theorem chainTermB_of_strict (bag : Bag)
    (hch : ∀ (d : StopId) (b : StopId),
      (bag.get (Place.stop d)).from_stop = some b →
      (bag.get (Place.stop b)).earliest_arrival_time <
        (bag.get (Place.stop d)).earliest_arrival_time) :
    ∀ (n : Nat) (d : StopId),
      (bag.get (Place.stop d)).earliest_arrival_time < n →
      chainTermB bag d n = true := by
  intro n
  induction n with
  | zero => intro d h; omega
  | succ m ih =>
    intro d h
    unfold chainTermB
    cases hfs : (bag.get (Place.stop d)).from_stop with
    | none => rfl
    | some b =>
      apply ih
      have := hch d b hfs
      omega

/-- Claim C9, counterexample: on a timetable satisfying the claim's literal
preconditions (weakly non-decreasing stop times, all transfer layovers
positive because there are none), a zero-duration trip produces a from-stop
edge whose arrival times are equal, so following a from-stop does not
strictly decrease the recorded arrival time. -/
theorem raptor_c9_cx :
    TTMonotone ztTT ∧ TransfersPos ztTT ∧
    ((run ztTT ["A"] stationBz 100 1).get
      (Place.stop "B")).from_stop = some "A" ∧
    ¬ (((run ztTT ["A"] stationBz 100 1).get
        (Place.stop "A")).earliest_arrival_time <
      ((run ztTT ["A"] stationBz 100 1).get
        (Place.stop "B")).earliest_arrival_time) := by
  refine ⟨by decide, ?_, by decide, by decide⟩
  intro s tr htr c hc
  exact absurd htr (List.not_mem_nil tr)

/-- Claim C9, amended: when every trip departs an earlier pattern stop
strictly before it arrives at any later pattern stop, every transfer
layover is strictly positive, and the departure time is below the
sentinel, following any from-stop recorded in the returned best-label
table strictly decreases the arrival time, so the chains are acyclic and
the backward walk of `reconstruct_journey` reaches the origin within
arrival-time-many steps for every destination stop. -/
theorem raptor_c9_amended (tt : Timetable) (from_stops : List StopId)
    (to_station : Station) (dep rounds : Nat)
    (hdep : dep ≤ LARGE_NUMBER) (HS : TTStrict tt) (HT : TransfersPos tt) :
    (∀ (p : Place) (b : StopId),
      ((run tt from_stops to_station dep rounds).get p).from_stop = some b →
      ((run tt from_stops to_station dep rounds).get
        (Place.stop b)).earliest_arrival_time <
        ((run tt from_stops to_station dep rounds).get
          p).earliest_arrival_time) ∧
    (∀ d : StopId,
      chainTermB (run tt from_stops to_station dep rounds) d
        (((run tt from_stops to_station dep rounds).get
          (Place.stop d)).earliest_arrival_time + 1) = true) := by
  have hch : ChainStrict (runState tt from_stops to_station dep rounds) :=
    runState_chain tt from_stops to_station dep rounds hdep HS HT
  refine ⟨hch, ?_⟩
  intro d
  exact chainTermB_of_strict (run tt from_stops to_station dep rounds)
    (fun d2 b hfs => hch (Place.stop d2) b hfs) _ d (by omega)

/-- Witness for the amended claim C9 on the 3-trip fixture. -/
theorem raptor_c9_wit :
    ((100 : Nat) ≤ LARGE_NUMBER ∧ TTStrict fixtureTT ∧
      TransfersPos fixtureTT) ∧
    ((∀ (p : Place) (b : StopId),
      ((run fixtureTT ["A"] stationF 100 2).get p).from_stop = some b →
      ((run fixtureTT ["A"] stationF 100 2).get
        (Place.stop b)).earliest_arrival_time <
        ((run fixtureTT ["A"] stationF 100 2).get
          p).earliest_arrival_time) ∧
    (∀ d : StopId,
      chainTermB (run fixtureTT ["A"] stationF 100 2) d
        (((run fixtureTT ["A"] stationF 100 2).get
          (Place.stop d)).earliest_arrival_time + 1) = true)) :=
  ⟨⟨by decide, by decide,
    fun s tr htr c hc => absurd htr (List.not_mem_nil tr)⟩,
   raptor_c9_amended fixtureTT ["A"] stationF 100 2 (by decide) (by decide)
     (fun s tr htr c hc => absurd htr (List.not_mem_nil tr))⟩

end Pyraptor
